import Mathlib

/-!
Shallow embedding of the agent-orchestration core of the repository
(`agentFramework/agent.py`, `agentFramework/llm.py`), together with a
model of the JSON decoding/serialization used by `ToolCall.args`
(Python's `json.loads` / `json.dumps`, external standard library).

Machine conventions:
* Python `dict` (insertion ordered) is a `List (key × value)` with
  first-match lookup and in-place-or-append update.
* Python exceptions are `Except` values; a caught `try/except` is a
  `match` on the `Except`.
* Real time is modelled by an explicit rational clock threaded through
  the retry/rate-limit layer; `time.sleep d` advances the clock by `d`.
* The backend (`LLM._inferModel`, abstract in the source) is a function
  of the physical-call index plus the arguments `generate` forwards.
-/

namespace AgentSpec

mutual

/-- JSON values, mutually with array/object spines so that structural
recursion and induction behave well.  Numbers are modelled as integers
(the repository's tool arguments are integers and strings). -/
inductive Json where
  | null : Json
  | bool (b : Bool) : Json
  | num (n : Int) : Json
  | str (s : String) : Json
  | arr (elems : JsonArr) : Json
  | obj (members : JsonObj) : Json
deriving DecidableEq

/-- Spine of a JSON array. -/
inductive JsonArr where
  | nil : JsonArr
  | cons (v : Json) (rest : JsonArr) : JsonArr
deriving DecidableEq

/-- Spine of a JSON object: ordered key/value members. -/
inductive JsonObj where
  | nil : JsonObj
  | cons (k : String) (v : Json) (rest : JsonObj) : JsonObj
deriving DecidableEq

end

/-! ## Protocol data model (`agentFramework/llm.py`) -/

/-- `ToolCall` (llm.py): `id`, `name`, and the decoded `args` mapping. -/
structure ToolCall where
  id : String
  name : String
  args : JsonObj
deriving DecidableEq

/-- `ExecutionResult` (llm.py): `success`, optional `output`, optional
`error`.  The `output` of a Python tool returning `None` is `none`. -/
structure ExecutionResult where
  success : Bool
  output : Option Json := none
  error : Option String := none
deriving DecidableEq

/-- `ToolResult` (llm.py): `id`, `name`, `result`. -/
structure ToolResult where
  id : String
  name : String
  result : ExecutionResult
deriving DecidableEq

/-- `MessageRole` (llm.py). -/
inductive MessageRole where
  | model
  | user
deriving DecidableEq

/-- `Message = Union[TextMessage, ToolMessage]` (llm.py).  `TextMessage`
carries `role` and `text`; `ToolMessage` carries `role`, `tool_calls`
and `tool_results` (at most one of the two lists is intended non-empty). -/
inductive Message where
  | text (role : MessageRole) (text : String)
  | tool (role : MessageRole) (tool_calls : List ToolCall)
      (tool_results : List ToolResult)
deriving DecidableEq

/-- `message.type == "text"` (the `type` tag of the Python union). -/
def Message.isText : Message → Bool
  | .text _ _ => true
  | .tool _ _ _ => false

/-- `message.type == "tool"`. -/
def Message.isTool : Message → Bool
  | .text _ _ => false
  | .tool _ _ _ => true

/-- `ToolMessage.get(name)` (llm.py): the result of the first tool_result
with the given name.  A `TextMessage` has no `get`; the orchestration
code only calls it after checking `type == "tool"`, so the text case is
mapped to `none`. -/
def Message.get : Message → String → Option ExecutionResult
  | .tool _ _ results, name =>
      (results.find? (fun tr => tr.name == name)).map (fun tr => tr.result)
  | .text _ _, _ => none

/-- `ToolMode` (llm.py). -/
inductive ToolMode where
  | auto
  | force
  | none
deriving DecidableEq

/-- The fields of `LLMParameters` (llm.py) the orchestration loop reads.
`tracker` and `temperature` play no role in the claims. -/
structure LLMParameters where
  end_tool_mode : Bool := false
deriving DecidableEq

/-- `Tool` (tool.py), restricted to the fields the orchestration loop
uses: `name`, `description`, `system_prompt`, and the callable.  The
callable takes the decoded `args` mapping; a raised Python exception is
an `Except.error` carrying `str(e)`, and a `None` return is `none`. -/
structure Tool where
  name : String
  description : String := ""
  system_prompt : Option String := Option.none
  function : JsonObj → Except String (Option Json)

/-! ## Hooks and tool execution (`agentFramework/agent.py`) -/

/-- A registered hook: `("pre", f)` or `("post", f)` in `Agent.hook_map`.
Hook callables are modelled as total functions (the claims do not
exercise hooks that raise). -/
inductive Hook where
  | pre (f : ToolCall → Option ToolCall)
  | post (f : ToolCall → ExecutionResult → Option ExecutionResult)

/-- A Python `dict` preserving insertion order: first-match lookup. -/
def dictFind {α : Type} (m : List (String × α)) (k : String) : Option α :=
  (m.find? (fun p => p.1 == k)).map (fun p => p.2)

/-- Python `d[k] = v`: replace in place if the key exists, append otherwise. -/
def dictSet {α : Type} (m : List (String × α)) (k : String) (v : α) :
    List (String × α) :=
  if (m.find? (fun p => p.1 == k)).isSome then
    m.map (fun p => if p.1 == k then (k, v) else p)
  else m ++ [(k, v)]

/-- `self.hook_map.get(tool_call.name, [])`. -/
def hooksFor (hook_map : List (String × List Hook)) (name : String) :
    List Hook :=
  (dictFind hook_map name).getD []

/-- The error text of `_execute_tool_raw` for an unknown tool name:
`f"Tool '{name}' not found, available tools: {', '.join(tool_map.keys())}"`. -/
def unknownToolMessage (name : String) (tool_map : List (String × Tool)) :
    String :=
  "Tool '" ++ name ++ "' not found, available tools: " ++
    String.intercalate ", " (tool_map.map (fun p => p.1))

/-- `Agent._execute_tool_raw`: raises (here `Except.error`) for an unknown
tool, otherwise invokes the callable with the call's arguments.  The
telemetry span around the invocation has no observable effect. -/
def execute_tool_raw (tc : ToolCall) (tool_map : List (String × Tool)) :
    Except String (Option Json) :=
  match dictFind tool_map tc.name with
  | Option.none => .error (unknownToolMessage tc.name tool_map)
  | Option.some tool => tool.function tc.args

/-- The first `for hook in hooks` loop of `Agent._execute_tool`: each
pre-hook may replace the running call; post-hooks are skipped. -/
def applyPreLoop : List Hook → ToolCall → ToolCall
  | [], tc => tc
  | .pre f :: rest, tc => applyPreLoop rest ((f tc).getD tc)
  | .post _ :: rest, tc => applyPreLoop rest tc

/-- The second `for hook in hooks` loop of `Agent._execute_tool`: each
post-hook may replace the running result; pre-hooks are skipped. -/
def applyPostLoop : List Hook → ToolCall → ExecutionResult → ExecutionResult
  | [], _, r => r
  | .post f :: rest, tc, r => applyPostLoop rest tc ((f tc r).getD r)
  | .pre _ :: rest, tc, r => applyPostLoop rest tc r

/-- `Agent._execute_tool`: pre-hook loop, guarded raw invocation
(`try/except` turning any exception into `success=False`), post-hook
loop. -/
def execute_tool (hook_map : List (String × List Hook)) (tc : ToolCall)
    (tool_map : List (String × Tool)) : ExecutionResult :=
  let hooks := hooksFor hook_map tc.name
  let tc2 := applyPreLoop hooks tc
  let result : ExecutionResult :=
    match execute_tool_raw tc2 tool_map with
    | .ok out => { success := true, output := out }
    | .error e => { success := false, error := Option.some e }
  applyPostLoop hooks tc2 result

/-- `Agent._execute_all_tools`. -/
def execute_all_tools (hook_map : List (String × List Hook))
    (calls : List ToolCall) (tool_map : List (String × Tool)) :
    List ToolResult :=
  calls.map (fun tc =>
    { id := tc.id, name := tc.name, result := execute_tool hook_map tc tool_map })

/-! ## The orchestration loop `Agent._run` (`agentFramework/agent.py`) -/

/-- The synthetic escape tool injected under `FORCE` when the backend
supports the convention (agent.py line 201). -/
def endToolModeTool : Tool :=
  { name := "end_tool_mode"
    description := "Use this tool to indicate that you are done with using tools and don't need it anymore"
    function := fun _ => .ok Option.none }

/-- The `tool_map` seen by this call's `generate`: under `FORCE` with
backend escape support, a copy with `end_tool_mode` added; otherwise the
map unchanged (agent.py lines 189-203). -/
def effectiveToolMap (p : LLMParameters) (tool_mode : ToolMode)
    (tool_map : List (String × Tool)) : List (String × Tool) :=
  if tool_mode = ToolMode.force ∧ p.end_tool_mode then
    dictSet tool_map "end_tool_mode" endToolModeTool
  else tool_map

/-- The tool names a step passes to the backend. -/
def effTools (p : LLMParameters) (mode : ToolMode)
    (map : List (String × Tool)) : List String :=
  (effectiveToolMap p mode map).map (fun t => t.1)

/-- `next_tool_mode` (agent.py lines 188-203): downgraded to `AUTO` for the
*next* iteration when `FORCE` is requested and the backend does not
support the escape convention; unchanged otherwise. -/
def nextToolMode (p : LLMParameters) (tool_mode : ToolMode) : ToolMode :=
  if tool_mode = ToolMode.force ∧ ¬p.end_tool_mode then ToolMode.auto
  else tool_mode

/-- `isinstance(response, ToolMessage) and any(tc.name == 'end_tool_mode'
for tc in response.tool_calls)` (agent.py lines 207-208). -/
def isEscapeResponse : Message → Bool
  | .tool _ calls _ => calls.any (fun tc => tc.name == "end_tool_mode")
  | .text _ _ => false

/-- The backend (`LLM.generate` / the abstract `_inferModel`): a function
of the physical-call index, the `tool_mode` argument, the names of the
tools passed, and the message history.  A scripted mock backend reads
the index; the claims quantify over this function. -/
def Backend : Type := Nat → ToolMode → List String → List Message → Message

/-- One recorded `generate` call: the `tool_mode` and the tool names the
orchestration loop passed to the backend. -/
structure GenCall where
  mode : ToolMode
  tools : List String
deriving DecidableEq

/-- Outcome of `Agent._run`: the returned message list or the raised
`RuntimeError` text, plus the trace of `generate` calls and of executed
tool-call batches (one batch per loop iteration that executed tools). -/
structure RunOut where
  result : Except String (List Message)
  gens : List GenCall
  execs : List (List ToolCall)
deriving Inhabited

/-- `Agent._run`.  `fuel` bounds the recursion depth (the Python function
can diverge when a backend keeps emitting the escape tool); `none` means
the fuel ran out, i.e. the Python call would still be recursing.
Mirrors agent.py lines 182-224: budget check, escape-tool injection /
mode downgrade, `generate`, escape-response retry at the *same*
iteration count with the original map, append + stop check, tool
execution + append + stop check, recursion with `iterations - 1`. -/
def run (p : LLMParameters) (hook_map : List (String × List Hook))
    (b : Backend) : Nat → Nat → Int → List Message → ToolMode →
    List (String × Tool) → (Message → Bool) → Option RunOut
  | 0, _, _, _, _, _, _ => Option.none
  | fuel + 1, idx, iterations, messages, tool_mode, tool_map, stop =>
    if iterations ≤ 0 then
      Option.some
        { result := .error "Agent reached max iterations while processing user input"
          gens := [], execs := [] }
    else
      let original_tool_map := tool_map
      let tool_map := effectiveToolMap p tool_mode tool_map
      let next_tool_mode := nextToolMode p tool_mode
      let response := b idx tool_mode (tool_map.map (fun t => t.1)) messages
      let gen : GenCall := { mode := tool_mode, tools := tool_map.map (fun t => t.1) }
      if isEscapeResponse response then
        (run p hook_map b fuel (idx + 1) iterations messages ToolMode.auto
            original_tool_map stop).map
          (fun r => { r with gens := gen :: r.gens })
      else
        let messages := messages ++ [response]
        if stop response then
          Option.some { result := .ok messages, gens := [gen], execs := [] }
        else
          match response with
          | .tool _ calls _ =>
            let results := execute_all_tools hook_map calls tool_map
            let response2 := Message.tool MessageRole.user [] results
            let messages := messages ++ [response2]
            if stop response2 then
              Option.some { result := .ok messages, gens := [gen], execs := [calls] }
            else
              (run p hook_map b fuel (idx + 1) (iterations - 1) messages
                  next_tool_mode original_tool_map stop).map
                (fun r => { r with gens := gen :: r.gens, execs := calls :: r.execs })
          | .text _ _ =>
            (run p hook_map b fuel (idx + 1) (iterations - 1) messages
                next_tool_mode original_tool_map stop).map
              (fun r => { r with gens := gen :: r.gens })

/-! ## `Agent.chat` and `Agent.structuredAnswer` -/

/-- The agent configuration fields `chat`/`structuredAnswer` read. -/
structure AgentConfig where
  system_prompt : String := ""
  max_iterations : Int := 10
  default_tool_mode : ToolMode := ToolMode.auto
  params : LLMParameters := {}
  tool_map : List (String × Tool) := []
  hook_map : List (String × List Hook) := []

/-- The mutable agent state: the conversation history. -/
structure AgentState where
  history : List Message
deriving DecidableEq

/-- The default stop predicate of `_invoke`:
`lambda last_message: last_message.type == 'text'`. -/
def stopText (m : Message) : Bool := m.isText

/-- `Agent.chat` / `Agent._invoke`: append the user message to the
history, run the loop on the (aliased) history with the full tool map,
and return the final text together with the updated state.  `none` is
fuel exhaustion of the embedded loop; `.error` the propagated
`RuntimeError`. -/
def chat (cfg : AgentConfig) (b : Backend) (fuel : Nat) (st : AgentState)
    (user_input : String) (tool_mode : Option ToolMode) :
    Option (Except String (String × AgentState)) :=
  let mode := tool_mode.getD cfg.default_tool_mode
  let message := Message.text MessageRole.user user_input
  let history := st.history ++ [message]
  match run cfg.params cfg.hook_map b fuel 0 cfg.max_iterations history mode
      cfg.tool_map stopText with
  | Option.none => Option.none
  | Option.some r =>
    match r.result with
    | .error e => Option.some (.error e)
    | .ok msgs =>
      match msgs.getLast? with
      | Option.some (.text _ t) => Option.some (.ok (t, { history := msgs }))
      | _ => Option.some (.error "AttributeError: message has no text")

/-- The stop predicate of `structuredAnswer`:
`last_message.type == 'tool' and last_message.get('set_output') is not None`. -/
def stopStructured (m : Message) : Bool :=
  m.isTool && (m.get "set_output").isSome

/-- The synthetic `set_output` tool of `structuredAnswer`; `construct`
models `lambda **kwargs: desired_output(**kwargs)` (a failing pydantic
validation is an `Except.error`). -/
def setOutputTool (construct : JsonObj → Except String (Option Json)) : Tool :=
  { name := "set_output"
    description := "use this function to reply in the desired format"
    function := construct }

/-- `Agent.structuredAnswer`: runs one iteration of the loop in `FORCE`
mode on a *copy* of the history extended with the user message, with
`set_output` as the only tool, and returns the decoded output.  The
agent state is returned unchanged alongside the result. -/
def structuredAnswer (cfg : AgentConfig) (b : Backend) (fuel : Nat)
    (st : AgentState) (user_input : String)
    (construct : JsonObj → Except String (Option Json)) :
    Option (Except String (Option Json × AgentState)) :=
  let tool := setOutputTool construct
  let messages := st.history ++ [Message.text MessageRole.user user_input]
  match run cfg.params cfg.hook_map b fuel 0 1 messages ToolMode.force
      [(tool.name, tool)] stopStructured with
  | Option.none => Option.none
  | Option.some r =>
    match r.result with
    | .error e => Option.some (.error e)
    | .ok msgs =>
      match msgs.getLast? with
      | Option.none => Option.some (.error "IndexError: empty history")
      | Option.some m =>
        match m.get "set_output" with
        | Option.none =>
            Option.some (.error "AttributeError: NoneType has no attribute output")
        | Option.some er => Option.some (.ok (er.output, st))

/-! ## Retry/backoff and rate limiting: `LLM._infer` (`agentFramework/llm.py`)

Real time is an explicit rational clock.  `now` is the current time
(`datetime.now().timestamp()`); `last` is the process-wide class-level
`LLM._last_request_time` shared by every backend instance.  `time.sleep d`
advances `now` by `d`.  The duration of the `k`-th physical attempt is an
arbitrary non-negative `dur k`; the jitter `random.uniform(0, 1)` sampled
before the `k`-th backoff sleep is an arbitrary `jitter k`. -/

/-- The process clock plus the shared `LLM._last_request_time`. -/
structure TimeState where
  now : ℚ
  last : ℚ
deriving DecidableEq

/-- Outcome of one physical `_inferModel` attempt: a message, a
`RetryLater` with its reason, or any other exception. -/
inductive AttemptOutcome where
  | ok (m : Message)
  | retryLater (reason : String)
  | raised (e : String)

/-- How `_infer` ends abnormally: the `RuntimeError("Max retries
exceeded")` after the loop, or an exception propagated uncaught. -/
inductive InferError where
  | maxRetries
  | raised (e : String)
deriving DecidableEq

/-- What one `_infer` run did: its result, the final clock/shared state,
the backoff sleeps in order, and the start time of each physical attempt. -/
structure InferOut where
  result : Except InferError Message
  state : TimeState
  sleeps : List ℚ
  starts : List ℚ

/-- The `while retries < max_retries` loop of `LLM._infer` (llm.py lines
177-195): set the shared timestamp to now, attempt the call; on
`RetryLater`, sleep `5 * 2^retries + jitter` and loop with `retries + 1`;
past 5 failures raise `RuntimeError("Max retries exceeded")`. -/
def inferLoop (attempt : Nat → AttemptOutcome) (dur jitter : Nat → ℚ)
    (retries : Nat) (st : TimeState) : InferOut :=
  if _h : retries < 5 then
    let st1 : TimeState := { now := st.now, last := st.now }
    let start := st1.now
    match attempt retries with
    | .ok m =>
        { result := .ok m, state := { st1 with now := st1.now + dur retries }
          sleeps := [], starts := [start] }
    | .raised e =>
        { result := .error (.raised e)
          state := { st1 with now := st1.now + dur retries }
          sleeps := [], starts := [start] }
    | .retryLater _ =>
        let delay := 5 * 2 ^ retries + jitter retries
        let r := inferLoop attempt dur jitter (retries + 1)
          { st1 with now := st1.now + dur retries + delay }
        { r with sleeps := delay :: r.sleeps, starts := start :: r.starts }
  else
    { result := .error .maxRetries, state := st, sleeps := [], starts := [] }
termination_by 5 - retries

/-- The rate-limit prelude of `_infer` (llm.py lines 170-174): if less
than 1 time-unit has elapsed since the shared timestamp, sleep the
remainder.  Returns the new state and the sleep performed, if any. -/
def rateLimit (st : TimeState) : TimeState × Option ℚ :=
  if st.now - st.last < 1 then
    ({ st with now := st.now + (1 - (st.now - st.last)) },
      Option.some (1 - (st.now - st.last)))
  else (st, Option.none)

/-- `LLM._infer`: rate-limit prelude, then the retry loop from
`retries = 0`. -/
def infer (attempt : Nat → AttemptOutcome) (dur jitter : Nat → ℚ)
    (st : TimeState) : InferOut :=
  inferLoop attempt dur jitter 0 (rateLimit st).1

/-! ## JSON text encoding and decoding

Modelled from the spec: the `args` payload "may arrive serialized as text
and must be decoded to a mapping; decoding failure is a hard error", and
decoding/serialization round-trip.  The decoding/serialization functions
themselves live in Python's standard `json` module (`json.loads` /
`json.dumps`), outside the repository's files; they are modelled here for
the JSON fragment the framework exchanges: null, booleans, integer
numbers, strings over printable ASCII plus the common escapes
(`json.dumps` emits ASCII by default), arrays and objects, with
`json.dumps`'s default `", "` / `": "` separators. -/

/-- The escaping `json.dumps` applies to one string character (restricted
to the escapes of the modelled fragment). -/
def escapeChar (c : Char) : List Char :=
  if c = '"' then ['\\', '"']
  else if c = '\\' then ['\\', '\\']
  else if c = '\n' then ['\\', 'n']
  else if c = '\t' then ['\\', 't']
  else if c = '\r' then ['\\', 'r']
  else [c]

/-- The serialized body of a string, closing quote included. -/
def serStrAux : List Char → List Char
  | [] => ['"']
  | c :: cs => escapeChar c ++ serStrAux cs

/-- A serialized JSON string: opening quote, escaped body, closing quote. -/
def serString (s : List Char) : List Char :=
  '"' :: serStrAux s

/-- The decimal digit character for `d < 10`. -/
def digitChar (d : Nat) : Char := Char.ofNat (48 + d)

/-- The decimal digits of `n`, least significant first (`[]` for 0). -/
def natDigitsRev (n : Nat) : List Char :=
  if h : n = 0 then []
  else digitChar (n % 10) :: natDigitsRev (n / 10)
decreasing_by exact Nat.div_lt_self (Nat.pos_of_ne_zero h) (by norm_num)

/-- The decimal digits of `n`, most significant first, never empty. -/
def natDigits (n : Nat) : List Char :=
  if n = 0 then ['0'] else (natDigitsRev n).reverse

/-- A serialized integer. -/
def serInt (i : Int) : List Char :=
  if i < 0 then '-' :: natDigits i.natAbs else natDigits i.natAbs

mutual

/-- `json.dumps` over the modelled fragment, to a character list. -/
def serJson : Json → List Char
  | .null => "null".data
  | .bool true => "true".data
  | .bool false => "false".data
  | .num i => serInt i
  | .str s => serString s.data
  | .arr a => '[' :: (serArr a ++ [']'])
  | .obj o => '{' :: (serObj o ++ ['}'])

/-- Array elements joined by `", "`. -/
def serArr : JsonArr → List Char
  | .nil => []
  | .cons v .nil => serJson v
  | .cons v (.cons v2 r) => serJson v ++ ',' :: ' ' :: serArr (.cons v2 r)

/-- Object members `key: value` joined by `", "`. -/
def serObj : JsonObj → List Char
  | .nil => []
  | .cons k v .nil => serString k.data ++ ':' :: ' ' :: serJson v
  | .cons k v (.cons k2 v2 r) =>
      serString k.data ++ ':' :: ' ' :: serJson v ++
        ',' :: ' ' :: serObj (.cons k2 v2 r)

end

/-- `json.dumps` over the modelled fragment. -/
def serialize (v : Json) : String := String.mk (serJson v)

/-- JSON whitespace. -/
def isWs (c : Char) : Bool := c = ' ' || c = '\n' || c = '\t' || c = '\r'

/-- Drop leading JSON whitespace. -/
def skipWs : List Char → List Char
  | [] => []
  | c :: cs => if isWs c then skipWs cs else c :: cs

/-- Decode one escape character (the fragment's escapes). -/
def unescape (c : Char) : Option Char :=
  if c = '"' then Option.some '"'
  else if c = '\\' then Option.some '\\'
  else if c = '/' then Option.some '/'
  else if c = 'n' then Option.some '\n'
  else if c = 't' then Option.some '\t'
  else if c = 'r' then Option.some '\r'
  else Option.none

/-- A character accepted un-escaped inside a JSON string: printable
ASCII other than the quote and the backslash (raw control characters are
a decode error, as for `json.loads` in strict mode). -/
def okRaw (c : Char) : Bool :=
  decide (c ≠ '"') && decide (c ≠ '\\') && decide (32 ≤ c.toNat) &&
    decide (c.toNat < 127)

/-- Parse a string body after its opening quote: the decoded characters
and the remaining input past the closing quote. -/
def parseStringBody : List Char → Option (List Char × List Char)
  | [] => Option.none
  | c :: cs =>
    if c = '"' then Option.some ([], cs)
    else if c = '\\' then
      match cs with
      | [] => Option.none
      | e :: cs2 =>
        match unescape e with
        | Option.some d =>
            (parseStringBody cs2).map (fun p => (d :: p.1, p.2))
        | Option.none => Option.none
    else if okRaw c then
      (parseStringBody cs).map (fun p => (c :: p.1, p.2))
    else Option.none

/-- Does the input start with this character? -/
def headIs (cs : List Char) (c : Char) : Bool :=
  match cs with
  | [] => false
  | x :: _ => x = c

/-- A decimal digit character. -/
def isDigit (c : Char) : Bool := decide (48 ≤ c.toNat) && decide (c.toNat ≤ 57)

/-- Numeric value of a digit character. -/
def digitVal (c : Char) : Nat := c.toNat - 48

/-- Split off the longest leading run of digits. -/
def takeDigits : List Char → List Char × List Char
  | [] => ([], [])
  | c :: cs =>
    if isDigit c then
      let p := takeDigits cs
      (c :: p.1, p.2)
    else ([], c :: cs)

/-- The value of a digit run, most significant first. -/
def digitsToNat (ds : List Char) : Nat :=
  ds.foldl (fun a c => 10 * a + digitVal c) 0

/-- Parse a non-empty digit run into its value. -/
def parseNat (cs : List Char) : Option (Nat × List Char) :=
  let p := takeDigits cs
  if p.1.isEmpty then Option.none else Option.some (digitsToNat p.1, p.2)

mutual

/-- Recursive-descent parser for one JSON value (`json.loads` over the
modelled fragment).  `fuel` bounds the recursion; every recursive call
decreases it. -/
def parseVal : Nat → List Char → Option (Json × List Char)
  | 0, _ => Option.none
  | fuel + 1, cs =>
    match skipWs cs with
    | [] => Option.none
    | c :: rest =>
      if c = 'n' then
        match rest with
        | 'u' :: 'l' :: 'l' :: r => Option.some (.null, r)
        | _ => Option.none
      else if c = 't' then
        match rest with
        | 'r' :: 'u' :: 'e' :: r => Option.some (.bool true, r)
        | _ => Option.none
      else if c = 'f' then
        match rest with
        | 'a' :: 'l' :: 's' :: 'e' :: r => Option.some (.bool false, r)
        | _ => Option.none
      else if c = '"' then
        (parseStringBody rest).map (fun p => (.str (String.mk p.1), p.2))
      else if c = '-' then
        (parseNat rest).map (fun p => (.num (-(p.1 : Int)), p.2))
      else if isDigit c then
        (parseNat (c :: rest)).map (fun p => (.num (p.1 : Int), p.2))
      else if c = '[' then
        let cs2 := skipWs rest
        if headIs cs2 ']' then Option.some (.arr .nil, cs2.tail)
        else (parseElems fuel cs2).map (fun p => (.arr p.1, p.2))
      else if c = '{' then
        let cs2 := skipWs rest
        if headIs cs2 '}' then Option.some (.obj .nil, cs2.tail)
        else (parseMembers fuel cs2).map (fun p => (.obj p.1, p.2))
      else Option.none

/-- Parse the elements of a non-empty array, consuming the closing `]`. -/
def parseElems : Nat → List Char → Option (JsonArr × List Char)
  | 0, _ => Option.none
  | fuel + 1, cs =>
    match parseVal fuel cs with
    | Option.none => Option.none
    | Option.some (v, r) =>
      let r1 := skipWs r
      if headIs r1 ',' then
        (parseElems fuel r1.tail).map (fun p => (.cons v p.1, p.2))
      else if headIs r1 ']' then Option.some (.cons v .nil, r1.tail)
      else Option.none

/-- Parse the members of a non-empty object, consuming the closing brace. -/
def parseMembers : Nat → List Char → Option (JsonObj × List Char)
  | 0, _ => Option.none
  | fuel + 1, cs =>
    let cs0 := skipWs cs
    if headIs cs0 '"' then
      match parseStringBody cs0.tail with
      | Option.none => Option.none
      | Option.some (k, r2) =>
        let r2a := skipWs r2
        if headIs r2a ':' then
          match parseVal fuel r2a.tail with
          | Option.none => Option.none
          | Option.some (v, r4) =>
            let r4a := skipWs r4
            if headIs r4a ',' then
              (parseMembers fuel r4a.tail).map
                (fun p => (.cons (String.mk k) v p.1, p.2))
            else if headIs r4a '}' then
              Option.some (.cons (String.mk k) v .nil, r4a.tail)
            else Option.none
        else Option.none
    else Option.none

end

/-- `json.loads` over the modelled fragment: parse one value and require
only whitespace after it. -/
def parseJson (s : String) : Option Json :=
  match parseVal (s.length + 1) s.data with
  | Option.some (v, rest) => if skipWs rest = [] then Option.some v else Option.none
  | Option.none => Option.none

/-- The `parse_args` field validator of `ToolCall` (llm.py lines 26-34)
composed with pydantic's `Dict[str, Any]` validation: a string payload is
decoded with `json.loads`; a decode failure raises
`ValueError("Invalid JSON string")`; a decoded non-mapping fails the
field's type validation. -/
def parse_args : String ⊕ JsonObj → Except String JsonObj
  | .inr m => .ok m
  | .inl s =>
    match parseJson s with
    | Option.some (.obj o) => .ok o
    | Option.some _ => .error "validation error: args is not a mapping"
    | Option.none => .error "Invalid JSON string"

/-! ## Sizes and well-formedness for the round-trip proofs -/

mutual

/-- Parser fuel needed for a value (counts nodes). -/
def jsize : Json → Nat
  | .arr a => asize a + 1
  | .obj o => osize o + 1
  | _ => 1

/-- Fuel needed for an array spine. -/
def asize : JsonArr → Nat
  | .nil => 0
  | .cons v r => 1 + jsize v + asize r

/-- Fuel needed for an object spine. -/
def osize : JsonObj → Nat
  | .nil => 0
  | .cons _ v r => 1 + jsize v + osize r

end

/-- A string character the modelled serializer can round-trip: the
escaped control characters or printable ASCII. -/
def wfChar (c : Char) : Bool :=
  c = '\n' || c = '\t' || c = '\r' ||
    (decide (32 ≤ c.toNat) && decide (c.toNat < 127))

/-- Every character of the string is round-trippable. -/
def wfString (s : String) : Bool := s.data.all wfChar

mutual

/-- Values within the modelled serializer's range. -/
def Json.wf : Json → Bool
  | .null => true
  | .bool _ => true
  | .num _ => true
  | .str s => wfString s
  | .arr a => JsonArr.wf a
  | .obj o => JsonObj.wf o

/-- Array spines within range. -/
def JsonArr.wf : JsonArr → Bool
  | .nil => true
  | .cons v r => Json.wf v && JsonArr.wf r

/-- Object spines within range. -/
def JsonObj.wf : JsonObj → Bool
  | .nil => true
  | .cons k v r => wfString k && Json.wf v && JsonObj.wf r

end

/-- Value of a digit list read least-significant first. -/
def lowVal : List Char → Nat
  | [] => 0
  | c :: cs => digitVal c + 10 * lowVal cs

/-- The first character, if any, is not a digit (so a digit run ends
exactly where the serializer put it). -/
def headNotDigit (cs : List Char) : Prop :=
  ∀ c ∈ cs.head?, isDigit c = false

/-! ## Registration-order views of the hook pipeline (for the hook claims) -/

/-- The pre-hook callables of a hook list, in registration order. -/
def preHookFuns (hooks : List Hook) : List (ToolCall → Option ToolCall) :=
  hooks.filterMap (fun h =>
    match h with
    | .pre f => Option.some f
    | .post _ => Option.none)

/-- The post-hook callables of a hook list, in registration order. -/
def postHookFuns (hooks : List Hook) :
    List (ToolCall → ExecutionResult → Option ExecutionResult) :=
  hooks.filterMap (fun h =>
    match h with
    | .pre _ => Option.none
    | .post f => Option.some f)

/-- Apply pre-hook callables left to right; a hook returning `none`
leaves the call unchanged. -/
def foldPre (fs : List (ToolCall → Option ToolCall)) (tc : ToolCall) : ToolCall :=
  fs.foldl (fun c f => (f c).getD c) tc

/-- Apply post-hook callables left to right on the running result. -/
def foldPost (fs : List (ToolCall → ExecutionResult → Option ExecutionResult))
    (tc : ToolCall) (r : ExecutionResult) : ExecutionResult :=
  fs.foldl (fun r f => (f tc r).getD r) r

/-- The `try/except` wrapper of `_execute_tool` around the raw invocation. -/
def wrapRaw (x : Except String (Option Json)) : ExecutionResult :=
  match x with
  | .ok out => { success := true, output := out }
  | .error e => { success := false, error := Option.some e }

/-! ## Concrete scripted scenarios (witnesses and counterexamples) -/

/-- The `add(a, b) -> a + b` tool of end-to-end scenario A. -/
def addTool : Tool :=
  { name := "add"
    description := "Add two numbers"
    function := fun o =>
      match o with
      | .cons _ (.num a) (.cons _ (.num b) .nil) => .ok (Option.some (.num (a + b)))
      | _ => .error "bad args" }

/-- The scripted call `add(2, 3)` of scenario A. -/
def tcAdd : ToolCall :=
  { id := "1", name := "add", args := .cons "a" (.num 2) (.cons "b" (.num 3) .nil) }

/-- Scenario A backend: first a tool-call message `add(2, 3)`, then the
text `"5"`. -/
def scriptA : Backend := fun idx _ _ _ =>
  if idx = 0 then Message.tool MessageRole.model [tcAdd] [] else Message.text MessageRole.model "5"

/-- Scenario A agent: `tool_mode=FORCE`, single tool `add`. -/
def cfgA : AgentConfig :=
  { default_tool_mode := ToolMode.force, tool_map := [("add", addTool)] }

/-- The history scenario A actually produces: user request, tool-call
message, aggregated tool-result message, final text. -/
def historyA : List Message :=
  [Message.text MessageRole.user "sum",
    Message.tool MessageRole.model [tcAdd] [],
    Message.tool MessageRole.user []
      [{ id := "1", name := "add",
         result := { success := true, output := Option.some (.num 5) } }],
    Message.text MessageRole.model "5"]

/-- A dummy tool call that is not the escape tool. -/
def tcDummy : ToolCall := { id := "1", name := "t", args := .nil }

/-- A backend that always asks for (non-escape) tool calls. -/
def loopBackend : Backend := fun _ _ _ _ =>
  Message.tool MessageRole.model [tcDummy] []

/-- A backend that always answers with plain text. -/
def textBackend : Backend := fun _ _ _ _ => Message.text MessageRole.model "hi"

/-- A backend that asks for a (non-escape) tool call once, then text. -/
def mixedBackend : Backend := fun idx _ _ _ =>
  if idx = 0 then Message.tool MessageRole.model [tcDummy] []
  else Message.text MessageRole.model "done"

/-- A backend that emits the escape tool call once, then text. -/
def escBackend : Backend := fun idx _ _ _ =>
  if idx = 0 then
    Message.tool MessageRole.model [{ id := "1", name := "end_tool_mode", args := .nil }] []
  else Message.text MessageRole.model "done"

/-- A backend scripted to call `set_output(count=7)`. -/
def scriptSet : Backend := fun _ _ _ _ =>
  Message.tool MessageRole.model
    [{ id := "1", name := "set_output", args := .cons "count" (.num 7) .nil }] []

/-- A `desired_output` constructor model: wrap the argument mapping. -/
def constructObj : JsonObj → Except String (Option Json) :=
  fun o => .ok (Option.some (.obj o))

/-- A backend attempt that always reports `RetryLater`. -/
def rlAttempt : Nat → AttemptOutcome := fun _ => .retryLater "rate limited"

/-- A backend attempt that always succeeds with a text message. -/
def okAttempt : Nat → AttemptOutcome := fun _ => .ok (Message.text MessageRole.model "x")

/-- Zero durations / zero jitter. -/
def zeroFn : Nat → ℚ := fun _ => 0

/-- An initial clock: the class-level timestamp starts 10 units in the
past (llm.py line 168). -/
def st0 : TimeState := { now := 0, last := -10 }

/-! # Theorems -/

/-- The pre-hook `for` loop equals the registration-order fold over the
pre-hook callables. -/
theorem applyPreLoop_eq_foldPre (hooks : List Hook) (tc : ToolCall) :
    applyPreLoop hooks tc = foldPre (preHookFuns hooks) tc := by
  induction hooks generalizing tc with
  | nil => rfl
  | cons h t ih =>
    cases h with
    | pre f => simp [applyPreLoop, preHookFuns, foldPre, ih]
    | post f => simp [applyPreLoop, preHookFuns, foldPre, ih]

/-- The post-hook `for` loop equals the registration-order fold over the
post-hook callables. -/
theorem applyPostLoop_eq_foldPost (hooks : List Hook) (tc : ToolCall)
    (r : ExecutionResult) :
    applyPostLoop hooks tc r = foldPost (postHookFuns hooks) tc r := by
  induction hooks generalizing r with
  | nil => rfl
  | cons h t ih =>
    cases h with
    | pre f => simp [applyPostLoop, postHookFuns, foldPost, ih]
    | post f => simp [applyPostLoop, postHookFuns, foldPost, ih]

/-- C7: executing a tool call whose name is absent from the active tool
map (with no hooks registered under that name) returns a caught failure:
`success = false`, no output, and the error string that names the
offending tool and lists the currently available tool names.  No
exception reaches the orchestration loop: `execute_tool` is total, the
raised `ValueError` of `_execute_tool_raw` being caught by the
`try/except` and folded into the result. -/
theorem C7_unknown_tool_caught (hm : List (String × List Hook)) (tc : ToolCall)
    (map : List (String × Tool)) (hhooks : hooksFor hm tc.name = [])
    (habsent : dictFind map tc.name = Option.none) :
    execute_tool hm tc map =
      { success := false, output := Option.none
        error := Option.some (unknownToolMessage tc.name map) } := by
  unfold execute_tool
  rw [hhooks]
  simp [applyPreLoop, applyPostLoop, execute_tool_raw, habsent]

/-- Witness for C7: tool `ghost` against a map holding only `add`. -/
theorem C7_unknown_tool_caught_witness :
    hooksFor ([] : List (String × List Hook)) "ghost" = [] ∧
    dictFind [("add", addTool)] "ghost" = Option.none ∧
    execute_tool [] { id := "1", name := "ghost", args := .nil }
        [("add", addTool)] =
      { success := false, output := Option.none
        error := Option.some "Tool 'ghost' not found, available tools: add" } :=
  ⟨rfl, rfl, C7_unknown_tool_caught [] { id := "1", name := "ghost", args := .nil }
    [("add", addTool)] rfl rfl⟩

/-- C8: tool execution applies all pre-hooks registered for the call's
name in registration order (each may replace the call, identity on
`none`), invokes the underlying callable — via `execute_tool_raw` — on
the *final* transformed call, then applies all post-hooks in
registration order on the running result; the final transformed result
is the execution's outcome.  The two append laws state that hook lists
compose in registration order. -/
theorem C8_hook_pipeline (hm : List (String × List Hook)) (tc : ToolCall)
    (map : List (String × Tool)) :
    execute_tool hm tc map =
      foldPost (postHookFuns (hooksFor hm tc.name))
        (foldPre (preHookFuns (hooksFor hm tc.name)) tc)
        (wrapRaw (execute_tool_raw
          (foldPre (preHookFuns (hooksFor hm tc.name)) tc) map)) ∧
    (∀ hs1 hs2 : List Hook, ∀ c : ToolCall,
      foldPre (preHookFuns (hs1 ++ hs2)) c =
        foldPre (preHookFuns hs2) (foldPre (preHookFuns hs1) c)) ∧
    (∀ hs1 hs2 : List Hook, ∀ c : ToolCall, ∀ r : ExecutionResult,
      foldPost (postHookFuns (hs1 ++ hs2)) c r =
        foldPost (postHookFuns hs2) c (foldPost (postHookFuns hs1) c r)) := by
  refine ⟨?_, ?_, ?_⟩
  · simp only [execute_tool, wrapRaw]
    rw [applyPreLoop_eq_foldPre, applyPostLoop_eq_foldPost]
  · intro hs1 hs2 c
    simp [preHookFuns, foldPre, List.filterMap_append, List.foldl_append]
  · intro hs1 hs2 c r
    simp [postHookFuns, foldPost, List.filterMap_append, List.foldl_append]

/-- One loop step whose backend response is a non-escape tool-call
message not matching the stop predicate (nor its aggregated result):
the loop appends both messages and recurses with `iterations - 1`. -/
theorem run_step_tool (p : LLMParameters) (hm : List (String × List Hook))
    (b : Backend) (f idx : Nat) (iters : Int) (msgs : List Message)
    (mode : ToolMode) (map : List (String × Tool)) (stop : Message → Bool)
    (role : MessageRole) (calls : List ToolCall) (results : List ToolResult)
    (hiter : ¬ iters ≤ 0)
    (hresp : b idx mode (effTools p mode map) msgs =
      Message.tool role calls results)
    (hesc : calls.any (fun tc => tc.name == "end_tool_mode") = false)
    (hstop1 : stop (Message.tool role calls results) = false)
    (hstop2 : stop (Message.tool MessageRole.user []
      (execute_all_tools hm calls (effectiveToolMap p mode map))) = false) :
    run p hm b (f + 1) idx iters msgs mode map stop =
      (run p hm b f (idx + 1) (iters - 1)
          (msgs ++ [Message.tool role calls results] ++
            [Message.tool MessageRole.user []
              (execute_all_tools hm calls (effectiveToolMap p mode map))])
          (nextToolMode p mode) map stop).map
        (fun r => { r with
          gens := { mode := mode, tools := effTools p mode map } :: r.gens
          execs := calls :: r.execs }) := by
  rw [run, if_neg hiter]
  simp only [effTools] at hresp
  simp only [hresp, isEscapeResponse, hesc, Bool.false_eq_true, if_false,
    hstop1, hstop2, effTools, List.append_assoc, List.singleton_append]

/-- One loop step whose backend response is plain text, under the
default stop predicate: the loop appends it and returns. -/
theorem run_step_text_stop (p : LLMParameters) (hm : List (String × List Hook))
    (b : Backend) (f idx : Nat) (iters : Int) (msgs : List Message)
    (mode : ToolMode) (map : List (String × Tool)) (role : MessageRole)
    (t : String) (hiter : ¬ iters ≤ 0)
    (hresp : b idx mode (effTools p mode map) msgs = Message.text role t) :
    run p hm b (f + 1) idx iters msgs mode map stopText =
      Option.some
        { result := .ok (msgs ++ [Message.text role t])
          gens := [{ mode := mode, tools := effTools p mode map }]
          execs := [] } := by
  rw [run, if_neg hiter]
  simp only [effTools] at hresp
  simp only [hresp, isEscapeResponse, Bool.false_eq_true, if_false,
    stopText, Message.isText, if_true, effTools]

/-- C3: when the backend's response to the current call is a tool-call
message whose calls include `end_tool_mode`, the loop retries as a fresh
recursive call with the *same* iteration count (the budget is not
consumed), `tool_mode` reset to `AUTO`, and the original tool map (the
injected synthetic tool discarded); the history passed on is unchanged —
the escape-bearing response is not appended.  Only the generate-call
trace records the extra backend call. -/
theorem C3_escape_retries_same_iteration (p : LLMParameters)
    (hm : List (String × List Hook)) (b : Backend) (fuel idx : Nat)
    (iters : Int) (msgs : List Message) (mode : ToolMode)
    (map : List (String × Tool)) (stop : Message → Bool)
    (hiter : ¬ iters ≤ 0)
    (hesc : isEscapeResponse (b idx mode (effTools p mode map) msgs) = true) :
    run p hm b (fuel + 1) idx iters msgs mode map stop =
      (run p hm b fuel (idx + 1) iters msgs ToolMode.auto map stop).map
        (fun r => { r with
          gens := { mode := mode, tools := effTools p mode map } :: r.gens }) := by
  rw [run, if_neg hiter]
  simp only [effTools] at hesc
  simp only [hesc, if_true, effTools]

/-- Witness for C3: a backend that emits the escape call first; both
sides of the equation evaluate on a concrete forced run. -/
theorem C3_escape_retries_same_iteration_witness :
    ¬ (1 : Int) ≤ 0 ∧
    isEscapeResponse (escBackend 0 ToolMode.force
      (effTools {} ToolMode.force []) []) = true ∧
    run {} [] escBackend 2 0 1 [] ToolMode.force [] stopText =
      (run {} [] escBackend 1 1 1 [] ToolMode.auto [] stopText).map
        (fun r => { r with
          gens := { mode := ToolMode.force, tools := effTools {} ToolMode.force [] } :: r.gens }) :=
  ⟨by decide, by decide,
    C3_escape_retries_same_iteration {} [] escBackend 1 0 1 [] ToolMode.force []
      stopText (by decide) (by decide)⟩

/-- C1: with an iteration budget of `n ≥ 0` and a backend whose every
response is a tool-call message never containing the escape tool, the
loop behind `chat` (the default `stopText` predicate) runs exactly `n`
iterations — `n` generate calls and `n` executed tool batches — and then
terminates with the fatal iteration-exhaustion `RuntimeError`; it
neither truncates silently (the error is raised, not a partial return)
nor loops forever (the result is reached at finite fuel `n + 1`). -/
theorem C1_iteration_budget_exhaustion (p : LLMParameters)
    (hm : List (String × List Hook)) (b : Backend)
    (hb : ∀ (i : Nat) (m : ToolMode) (ts : List String) (hist : List Message),
      (b i m ts hist).isTool = true ∧ isEscapeResponse (b i m ts hist) = false)
    (n : Nat) (fuel idx : Nat) (msgs : List Message) (mode : ToolMode)
    (map : List (String × Tool)) (hfuel : n + 1 ≤ fuel) :
    ∃ r : RunOut,
      run p hm b fuel idx (n : Int) msgs mode map stopText = Option.some r ∧
      r.result = .error "Agent reached max iterations while processing user input" ∧
      r.gens.length = n ∧ r.execs.length = n := by
  induction n generalizing fuel idx msgs mode map with
  | zero =>
    obtain ⟨f, rfl⟩ : ∃ f, fuel = f + 1 := ⟨fuel - 1, by omega⟩
    refine ⟨⟨.error "Agent reached max iterations while processing user input", [], []⟩,
      ?_, rfl, rfl, rfl⟩
    rw [run, if_pos (by norm_num)]
  | succ n ih =>
    obtain ⟨f, rfl⟩ : ∃ f, fuel = f + 1 := ⟨fuel - 1, by omega⟩
    obtain ⟨htool, hesc⟩ := hb idx mode (effTools p mode map) msgs
    rcases hresp : b idx mode (effTools p mode map) msgs with ⟨role, t⟩ | ⟨role, calls, results⟩
    · rw [hresp] at htool
      simp [Message.isTool] at htool
    · rw [hresp] at hesc
      simp only [isEscapeResponse] at hesc
      obtain ⟨r, hr, hres, hg, he⟩ := ih f (idx + 1)
        (msgs ++ [Message.tool role calls results] ++
          [Message.tool MessageRole.user []
            (execute_all_tools hm calls (effectiveToolMap p mode map))])
        (nextToolMode p mode) map (by omega)
      refine ⟨⟨r.result, ⟨mode, effTools p mode map⟩ :: r.gens, calls :: r.execs⟩,
        ?_, ?_, ?_, ?_⟩
      · rw [show ((n + 1 : Nat) : Int) = ((n : Nat) : Int) + 1 by push_cast; ring]
        rw [run_step_tool p hm b f idx _ msgs mode map stopText role calls results
          (by omega) hresp hesc rfl rfl]
        rw [show ((n : Nat) : Int) + 1 - 1 = ((n : Nat) : Int) by ring]
        rw [hr]
        rfl
      · simpa using hres
      · simp [hg]
      · simp [he]

/-- Witness for C1: budget 3, a backend that always asks for a dummy
tool call; exactly 3 generate calls and 3 executed batches, then the
fatal error. -/
theorem C1_iteration_budget_exhaustion_witness :
    (run {} [] loopBackend 4 0 ((3 : Nat) : Int) [] ToolMode.auto []
        stopText).map (fun r => (r.result, r.gens.length, r.execs.length)) =
      Option.some
        (.error "Agent reached max iterations while processing user input", 3, 3) := by
  obtain ⟨r, hr, h1, h2, h3⟩ := C1_iteration_budget_exhaustion {} [] loopBackend
    (fun i m ts hist => ⟨rfl, rfl⟩) 3 4 0 [] ToolMode.auto [] (by norm_num)
  rw [hr]
  simp [h1, h2, h3]

/-- Counterexample for C2: a forced call against a backend without
escape support (`end_tool_mode = false`).  The claim says the mode
passed to the backend for that same call is `AUTO`; the recorded
generate trace shows it is `FORCE`. -/
theorem C2_counterexample_force_passed_through :
    (run {} [] textBackend 2 0 1 [] ToolMode.force [] stopText).map
        (fun r => r.gens.map GenCall.mode) = Option.some [ToolMode.force] ∧
      ToolMode.force ≠ ToolMode.auto :=
  ⟨rfl, by decide⟩

/-- C2 (amended): when `tool_mode = FORCE` and the backend does not
support the escape convention, the *current* call is still issued with
`FORCE` (and the unmodified tool set); the downgrade to `AUTO` takes
effect only from the next iteration's backend call. -/
theorem C2_amended_downgrade_applies_next_iteration (p : LLMParameters)
    (hm : List (String × List Hook)) (b : Backend) (fuel idx : Nat)
    (iters : Int) (msgs : List Message) (map : List (String × Tool))
    (role : MessageRole) (calls : List ToolCall) (results : List ToolResult)
    (hp : p.end_tool_mode = false) (hiters : 2 ≤ iters) (hfuel : 2 ≤ fuel)
    (hresp : b idx ToolMode.force (map.map (fun t => t.1)) msgs =
      Message.tool role calls results)
    (hesc : calls.any (fun tc => tc.name == "end_tool_mode") = false)
    (htext : ∀ (m : ToolMode) (ts : List String) (hist : List Message),
      (b (idx + 1) m ts hist).isText = true) :
    ∃ r : RunOut,
      run p hm b fuel idx iters msgs ToolMode.force map stopText = Option.some r ∧
      r.gens.map GenCall.mode = [ToolMode.force, ToolMode.auto] ∧
      r.gens.map GenCall.tools =
        [map.map (fun t => t.1), map.map (fun t => t.1)] := by
  have heff : effectiveToolMap p ToolMode.force map = map := by
    simp [effectiveToolMap, hp]
  have heffT : effTools p ToolMode.force map = map.map (fun t => t.1) := by
    simp [effTools, heff]
  have heffA : effTools p ToolMode.auto map = map.map (fun t => t.1) := by
    simp [effTools, effectiveToolMap]
  have hnext : nextToolMode p ToolMode.force = ToolMode.auto := by
    simp [nextToolMode, hp]
  obtain ⟨f, rfl⟩ : ∃ f, fuel = (f + 1) + 1 := ⟨fuel - 2, by omega⟩
  rw [run_step_tool p hm b (f + 1) idx iters msgs ToolMode.force map stopText
    role calls results (by omega) (by rw [heffT, hresp]) hesc rfl rfl]
  rcases hresp2 : b (idx + 1) (nextToolMode p ToolMode.force)
      (effTools p (nextToolMode p ToolMode.force) map)
      (msgs ++ [Message.tool role calls results] ++
        [Message.tool MessageRole.user []
          (execute_all_tools hm calls (effectiveToolMap p ToolMode.force map))])
    with ⟨role2, t2⟩ | ⟨role2, calls2, results2⟩
  · rw [run_step_text_stop p hm b f (idx + 1) (iters - 1) _
      (nextToolMode p ToolMode.force) map role2 t2 (by omega) hresp2]
    refine ⟨_, rfl, ?_, ?_⟩
    · simp [hnext]
    · simp [hnext, heffT, heffA]
  · have := htext (nextToolMode p ToolMode.force)
      (effTools p (nextToolMode p ToolMode.force) map)
      (msgs ++ [Message.tool role calls results] ++
        [Message.tool MessageRole.user []
          (execute_all_tools hm calls (effectiveToolMap p ToolMode.force map))])
    rw [hresp2] at this
    simp [Message.isText] at this

/-- Witness for C2 (amended): the two-step mixed backend; the generate
trace is `FORCE` then `AUTO` with the unchanged (empty) tool set. -/
theorem C2_amended_downgrade_applies_next_iteration_witness :
    (run {} [] mixedBackend 2 0 2 [] ToolMode.force [] stopText).map
        (fun r => (r.gens.map GenCall.mode, r.gens.map GenCall.tools)) =
      Option.some ([ToolMode.force, ToolMode.auto], [[], []]) := by
  obtain ⟨r, hr, h1, h2⟩ := C2_amended_downgrade_applies_next_iteration
    {} [] mixedBackend 2 0 2 [] [] MessageRole.model [tcDummy] []
    rfl (by norm_num) (by norm_num) rfl rfl (fun m ts hist => rfl)
  rw [hr]
  simp [h1, h2]

/-- Counterexample for C4: in scenario A, `chat "sum"` does return
`"5"`, but the agent's history afterwards has 4 entries (user request,
tool-call message, aggregated tool-result message, final text), not 3:
the loop appends the tool-result and the final text as two separate
messages. -/
theorem C4_counterexample_history_has_four_entries :
    chat cfgA scriptA 20 { history := [] } "sum" Option.none =
      Option.some (.ok ("5", { history := historyA })) ∧
    historyA.length = 4 ∧
    ¬ ∃ st : AgentState,
        chat cfgA scriptA 20 { history := [] } "sum" Option.none =
          Option.some (.ok ("5", st)) ∧ st.history.length = 3 := by
  have hc : chat cfgA scriptA 20 { history := [] } "sum" Option.none =
      Option.some (.ok ("5", { history := historyA })) := by rfl
  refine ⟨hc, rfl, ?_⟩
  rintro ⟨st, h1, h2⟩
  rw [hc] at h1
  injection h1 with h1
  injection h1 with h1
  have hst : ({ history := historyA } : AgentState) = st := congrArg Prod.snd h1
  rw [← hst] at h2
  simp [historyA] at h2

/-- C4 (amended): scenario A — agent with `tool_mode=FORCE` and the
single tool `add`, backend scripted to call `add(2, 3)` and then answer
`"5"` — returns `"5"`, and the history afterwards has exactly 4 entries:
the user request, the tool-call message, the tool-result message, and
the final text. -/
theorem C4_amended_scenarioA :
    chat cfgA scriptA 20 { history := [] } "sum" Option.none =
      Option.some (.ok ("5", { history := historyA })) ∧
    historyA.length = 4 := ⟨rfl, rfl⟩

/-- C10: `structuredAnswer` operates on a copy of the history: whenever
it returns successfully, the agent state it hands back carries exactly
the history it started from — neither the user message, nor the forced
`set_output` call, nor its result is appended. -/
theorem C10_structuredAnswer_preserves_history (cfg : AgentConfig)
    (b : Backend) (fuel : Nat) (st : AgentState) (input : String)
    (construct : JsonObj → Except String (Option Json))
    (out : Option Json) (st2 : AgentState)
    (h : structuredAnswer cfg b fuel st input construct =
      Option.some (.ok (out, st2))) :
    st2.history = st.history := by
  simp only [structuredAnswer] at h
  repeat' split at h
  all_goals simp_all

/-- Witness for C10: a scripted `set_output(count=7)` backend; the
returned state still holds exactly the pre-call history. -/
theorem C10_structuredAnswer_preserves_history_witness :
    structuredAnswer {} scriptSet 5 ⟨[Message.text MessageRole.user "old"]⟩
        "give" constructObj =
      Option.some (.ok (Option.some (Json.obj (.cons "count" (.num 7) .nil)),
        ⟨[Message.text MessageRole.user "old"]⟩)) ∧
    (⟨[Message.text MessageRole.user "old"]⟩ : AgentState).history =
      [Message.text MessageRole.user "old"] :=
  ⟨rfl, C10_structuredAnswer_preserves_history {} scriptSet 5
    ⟨[Message.text MessageRole.user "old"]⟩ "give" constructObj
    (Option.some (Json.obj (.cons "count" (.num 7) .nil)))
    ⟨[Message.text MessageRole.user "old"]⟩ rfl⟩

/-! ## Retry/backoff lemmas (C5) and rate limiting (C6) -/

/-- Unfolding one retrying step of the `_infer` loop. -/
theorem inferLoop_retry_step (attempt : Nat → AttemptOutcome)
    (dur jitter : Nat → ℚ) (k : Nat) (st : TimeState) (re : String)
    (hk : k < 5) (h : attempt k = .retryLater re) :
    inferLoop attempt dur jitter k st =
      (fun r => { r with
          sleeps := (5 * 2 ^ k + jitter k) :: r.sleeps
          starts := st.now :: r.starts })
        (inferLoop attempt dur jitter (k + 1)
          { now := st.now + dur k + (5 * 2 ^ k + jitter k), last := st.now }) := by
  rw [inferLoop, dif_pos hk, h]

/-- Unfolding one immediately-propagating step of the `_infer` loop. -/
theorem inferLoop_raised_step (attempt : Nat → AttemptOutcome)
    (dur jitter : Nat → ℚ) (k : Nat) (st : TimeState) (e : String)
    (hk : k < 5) (h : attempt k = .raised e) :
    inferLoop attempt dur jitter k st =
      { result := .error (.raised e)
        state := { now := st.now + dur k, last := st.now }
        sleeps := [], starts := [st.now] } := by
  rw [inferLoop, dif_pos hk, h]

/-- Unfolding one successful step of the `_infer` loop. -/
theorem inferLoop_ok_step (attempt : Nat → AttemptOutcome)
    (dur jitter : Nat → ℚ) (k : Nat) (st : TimeState) (m : Message)
    (hk : k < 5) (h : attempt k = .ok m) :
    inferLoop attempt dur jitter k st =
      { result := .ok m
        state := { now := st.now + dur k, last := st.now }
        sleeps := [], starts := [st.now] } := by
  rw [inferLoop, dif_pos hk, h]

/-- The loop past the retry budget raises `Max retries exceeded`. -/
theorem inferLoop_exhausted (attempt : Nat → AttemptOutcome)
    (dur jitter : Nat → ℚ) (st : TimeState) :
    inferLoop attempt dur jitter 5 st =
      { result := .error .maxRetries, state := st, sleeps := [], starts := [] } := by
  rw [inferLoop, dif_neg (by norm_num)]

/-- The loop issues at most `5 - k` physical attempts from retry
counter `k`. -/
theorem inferLoop_starts_length_le (attempt : Nat → AttemptOutcome)
    (dur jitter : Nat → ℚ) :
    ∀ (m k : Nat) (st : TimeState), 5 - k = m →
      (inferLoop attempt dur jitter k st).starts.length ≤ m := by
  intro m
  induction m with
  | zero =>
    intro k st hm
    rw [inferLoop, dif_neg (by omega)]
    simp
  | succ m ih =>
    intro k st hm
    rw [inferLoop, dif_pos (by omega)]
    cases hatt : attempt k with
    | ok msg => simp
    | raised e => simp
    | retryLater re =>
      have := ih (k + 1) { now := st.now + dur k + (5 * 2 ^ k + jitter k), last := st.now }
        (by omega)
      simpa using Nat.succ_le_succ this

/-- The first physical attempt of the loop starts at the clock's `now`. -/
theorem inferLoop_starts_head (attempt : Nat → AttemptOutcome)
    (dur jitter : Nat → ℚ) (k : Nat) (st : TimeState) (hk : k < 5) :
    (inferLoop attempt dur jitter k st).starts.head? = Option.some st.now := by
  rw [inferLoop, dif_pos hk]
  cases hatt : attempt k <;> simp

/-- The shared timestamp after the loop is at least the clock at entry
(each attempt stamps its own start, and time only moves forward). -/
theorem inferLoop_last_ge (attempt : Nat → AttemptOutcome)
    (dur jitter : Nat → ℚ) (hd : ∀ n, 0 ≤ dur n) (hj : ∀ n, 0 ≤ jitter n) :
    ∀ (m k : Nat) (st : TimeState), 5 - k = m → k < 5 →
      st.now ≤ (inferLoop attempt dur jitter k st).state.last := by
  intro m
  induction m with
  | zero => intro k st hm hk; omega
  | succ m ih =>
    intro k st hm hk
    rw [inferLoop, dif_pos hk]
    cases hatt : attempt k with
    | ok msg => simp
    | raised e => simp
    | retryLater re =>
      simp only
      have hstep : st.now ≤ st.now + dur k + (5 * 2 ^ k + jitter k) := by
        have h1 := hd k
        have h2 := hj k
        have h3 : (0 : ℚ) < 5 * 2 ^ k := by positivity
        linarith
      by_cases hk1 : k + 1 < 5
      · have := ih (k + 1)
          { now := st.now + dur k + (5 * 2 ^ k + jitter k), last := st.now }
          (by omega) hk1
        simp only at this
        linarith
      · have hk5 : k + 1 = 5 := by omega
        rw [hk5, inferLoop_exhausted]

/-- C5: for every backend call, the retry layer issues at most 5
physical attempts.  If every attempt fails with `RetryLater`, the call
ends with the fatal `Max retries exceeded` error after exactly 5
attempts, the `k`-th backoff sleep (k = 0..4) lasting
`5 * 2 ^ k + jitter k` time-units, where `jitter k` models the
`random.uniform(0, 1)` sample.  A failure other than `RetryLater` at
attempt `k` (all earlier attempts having been `RetryLater`) propagates
immediately: the call ends with that exact error after `k + 1` attempts
and only the `k` earlier backoff sleeps. -/
theorem C5_retry_backoff (attempt : Nat → AttemptOutcome)
    (dur jitter : Nat → ℚ) (st : TimeState) :
    (infer attempt dur jitter st).starts.length ≤ 5 ∧
    ((∀ k, k < 5 → ∃ re, attempt k = .retryLater re) →
      (infer attempt dur jitter st).result = .error .maxRetries ∧
      (infer attempt dur jitter st).sleeps =
        (List.range 5).map (fun k => 5 * 2 ^ k + jitter k) ∧
      (infer attempt dur jitter st).starts.length = 5) ∧
    (∀ (k : Nat) (e : String), k < 5 → attempt k = .raised e →
      (∀ j, j < k → ∃ re, attempt j = .retryLater re) →
      (infer attempt dur jitter st).result = .error (.raised e) ∧
      (infer attempt dur jitter st).sleeps =
        (List.range k).map (fun j => 5 * 2 ^ j + jitter j) ∧
      (infer attempt dur jitter st).starts.length = k + 1) := by
  refine ⟨?_, ?_, ?_⟩
  · exact inferLoop_starts_length_le attempt dur jitter 5 0 _ rfl
  · intro hrl
    obtain ⟨r0, h0⟩ := hrl 0 (by norm_num)
    obtain ⟨r1, h1⟩ := hrl 1 (by norm_num)
    obtain ⟨r2, h2⟩ := hrl 2 (by norm_num)
    obtain ⟨r3, h3⟩ := hrl 3 (by norm_num)
    obtain ⟨r4, h4⟩ := hrl 4 (by norm_num)
    rw [infer,
      inferLoop_retry_step attempt dur jitter 0 _ r0 (by norm_num) h0,
      inferLoop_retry_step attempt dur jitter 1 _ r1 (by norm_num) h1,
      inferLoop_retry_step attempt dur jitter 2 _ r2 (by norm_num) h2,
      inferLoop_retry_step attempt dur jitter 3 _ r3 (by norm_num) h3,
      inferLoop_retry_step attempt dur jitter 4 _ r4 (by norm_num) h4,
      inferLoop_exhausted]
    refine ⟨rfl, ?_, rfl⟩
    simp [List.range_succ]
  · intro k e hk hke hrl
    interval_cases k
    · rw [infer, inferLoop_raised_step attempt dur jitter 0 _ e (by norm_num) hke]
      exact ⟨rfl, by simp, rfl⟩
    · obtain ⟨r0, h0⟩ := hrl 0 (by norm_num)
      rw [infer,
        inferLoop_retry_step attempt dur jitter 0 _ r0 (by norm_num) h0,
        inferLoop_raised_step attempt dur jitter 1 _ e (by norm_num) hke]
      exact ⟨rfl, by simp [List.range_succ], rfl⟩
    · obtain ⟨r0, h0⟩ := hrl 0 (by norm_num)
      obtain ⟨r1, h1⟩ := hrl 1 (by norm_num)
      rw [infer,
        inferLoop_retry_step attempt dur jitter 0 _ r0 (by norm_num) h0,
        inferLoop_retry_step attempt dur jitter 1 _ r1 (by norm_num) h1,
        inferLoop_raised_step attempt dur jitter 2 _ e (by norm_num) hke]
      exact ⟨rfl, by simp [List.range_succ], rfl⟩
    · obtain ⟨r0, h0⟩ := hrl 0 (by norm_num)
      obtain ⟨r1, h1⟩ := hrl 1 (by norm_num)
      obtain ⟨r2, h2⟩ := hrl 2 (by norm_num)
      rw [infer,
        inferLoop_retry_step attempt dur jitter 0 _ r0 (by norm_num) h0,
        inferLoop_retry_step attempt dur jitter 1 _ r1 (by norm_num) h1,
        inferLoop_retry_step attempt dur jitter 2 _ r2 (by norm_num) h2,
        inferLoop_raised_step attempt dur jitter 3 _ e (by norm_num) hke]
      exact ⟨rfl, by simp [List.range_succ], rfl⟩
    · obtain ⟨r0, h0⟩ := hrl 0 (by norm_num)
      obtain ⟨r1, h1⟩ := hrl 1 (by norm_num)
      obtain ⟨r2, h2⟩ := hrl 2 (by norm_num)
      obtain ⟨r3, h3⟩ := hrl 3 (by norm_num)
      rw [infer,
        inferLoop_retry_step attempt dur jitter 0 _ r0 (by norm_num) h0,
        inferLoop_retry_step attempt dur jitter 1 _ r1 (by norm_num) h1,
        inferLoop_retry_step attempt dur jitter 2 _ r2 (by norm_num) h2,
        inferLoop_retry_step attempt dur jitter 3 _ r3 (by norm_num) h3,
        inferLoop_raised_step attempt dur jitter 4 _ e (by norm_num) hke]
      exact ⟨rfl, by simp [List.range_succ], rfl⟩

/-- Witness for C5: all five attempts report `RetryLater`, with zero
jitter; the sleeps are exactly 5, 10, 20, 40, 80 and the result the
fatal error. -/
theorem C5_retry_backoff_witness :
    (infer rlAttempt zeroFn zeroFn st0).result = .error .maxRetries ∧
    (infer rlAttempt zeroFn zeroFn st0).sleeps = [5, 10, 20, 40, 80] ∧
    (infer rlAttempt zeroFn zeroFn st0).starts.length = 5 := by
  obtain ⟨hres, hsleeps, hlen⟩ := (C5_retry_backoff rlAttempt zeroFn zeroFn st0).2.1
    (fun k hk => ⟨"rate limited", rfl⟩)
  refine ⟨hres, ?_, hlen⟩
  rw [hsleeps]
  norm_num [List.range_succ, zeroFn]

/-- The rate-limit prelude guarantees the clock is at least one unit
past the shared timestamp. -/
theorem rateLimit_now_ge (st : TimeState) :
    st.last + 1 ≤ (rateLimit st).1.now := by
  unfold rateLimit
  split
  · simp only
    linarith
  · simp only
    linarith [not_lt.mp (by assumption : ¬ st.now - st.last < 1)]

/-- C6: two back-to-back physical backend calls in the same process, on
any two backend instances (the timestamp is class-level shared state),
start at least one time-unit apart: the second `_infer` begins its first
physical attempt no earlier than one unit after the first `_infer`'s
first (indeed last) attempt started, the rate-limit prelude blocking for
the remainder of the interval. -/
theorem C6_rate_limit_one_unit_separation (a1 a2 : Nat → AttemptOutcome)
    (d1 d2 j1 j2 : Nat → ℚ) (start : TimeState)
    (hd1 : ∀ n, 0 ≤ d1 n) (hj1 : ∀ n, 0 ≤ j1 n) (s1 s2 : ℚ)
    (h1 : (infer a1 d1 j1 start).starts.head? = Option.some s1)
    (h2 : (infer a2 d2 j2 (infer a1 d1 j1 start).state).starts.head? =
      Option.some s2) :
    s1 + 1 ≤ s2 := by
  have hh1 := inferLoop_starts_head a1 d1 j1 0 (rateLimit start).1 (by norm_num)
  rw [infer] at h1
  rw [hh1] at h1
  have hs1 : s1 = (rateLimit start).1.now := by
    injection h1 with h
    exact h.symm
  have hh2 := inferLoop_starts_head a2 d2 j2 0
    (rateLimit (infer a1 d1 j1 start).state).1 (by norm_num)
  rw [infer] at h2
  rw [hh2] at h2
  have hs2 : s2 = (rateLimit (infer a1 d1 j1 start).state).1.now := by
    injection h2 with h
    exact h.symm
  have hlast : (rateLimit start).1.now ≤ (infer a1 d1 j1 start).state.last := by
    rw [infer]
    exact inferLoop_last_ge a1 d1 j1 hd1 hj1 5 0 _ rfl (by norm_num)
  have hrl2 := rateLimit_now_ge (infer a1 d1 j1 start).state
  rw [hs1, hs2]
  linarith

/-- Witness for C6: a successful instantaneous first call from the
initial clock; the second call is delayed to start exactly one unit
later. -/
theorem C6_rate_limit_one_unit_separation_witness :
    (infer okAttempt zeroFn zeroFn st0).starts.head? = Option.some 0 ∧
    (infer okAttempt zeroFn zeroFn
        (infer okAttempt zeroFn zeroFn st0).state).starts.head? =
      Option.some 1 ∧
    (0 : ℚ) + 1 ≤ 1 := by
  have hA : (infer okAttempt zeroFn zeroFn st0).starts.head? = Option.some 0 := by
    rw [infer, inferLoop_starts_head okAttempt zeroFn zeroFn 0 _ (by norm_num)]
    norm_num [rateLimit, st0]
  have hstate : (infer okAttempt zeroFn zeroFn st0).state =
      { now := 0, last := 0 } := by
    rw [infer, inferLoop_ok_step okAttempt zeroFn zeroFn 0 _
      (Message.text MessageRole.model "x") (by norm_num) rfl]
    norm_num [rateLimit, st0, zeroFn]
  have hB : (infer okAttempt zeroFn zeroFn
      (infer okAttempt zeroFn zeroFn st0).state).starts.head? =
      Option.some 1 := by
    rw [infer, inferLoop_starts_head okAttempt zeroFn zeroFn 0 _ (by norm_num),
      hstate]
    norm_num [rateLimit]
  exact ⟨hA, hB,
    C6_rate_limit_one_unit_separation okAttempt okAttempt zeroFn zeroFn zeroFn
      zeroFn st0 (fun n => le_refl 0) (fun n => le_refl 0) 0 1 hA hB⟩

/-! ## JSON round-trip lemmas (C9) -/

/-- Skipping whitespace leaves input starting with a non-space intact. -/
theorem skipWs_cons_not_ws (c : Char) (cs : List Char) (h : isWs c = false) :
    skipWs (c :: cs) = c :: cs := by
  simp [skipWs, h]

/-- A serialized string body parses back to exactly its characters,
leaving the trailing input untouched. -/
theorem parseStringBody_ser (s : List Char) (hs : s.all wfChar = true) :
    ∀ rest, parseStringBody (serStrAux s ++ rest) = Option.some (s, rest) := by
  induction s with
  | nil =>
    intro rest
    rw [serStrAux, List.cons_append, parseStringBody.eq_def]
    simp
  | cons c cs ih =>
    intro rest
    simp only [List.all_cons, Bool.and_eq_true] at hs
    obtain ⟨hc, hcs⟩ := hs
    simp only [serStrAux, List.append_assoc]
    by_cases h1 : c = '"'
    · subst h1
      rw [escapeChar, if_pos rfl, List.cons_append, List.cons_append,
        parseStringBody.eq_def]
      simp [unescape, ih hcs rest]
    · by_cases h2 : c = '\\'
      · subst h2
        rw [escapeChar]
        rw [if_neg (by decide), if_pos rfl, List.cons_append, List.cons_append,
          parseStringBody.eq_def]
        simp [unescape, ih hcs rest]
      · by_cases h3 : c = '\n'
        · subst h3
          rw [escapeChar]
          rw [if_neg (by decide), if_neg (by decide), if_pos rfl,
            List.cons_append, List.cons_append, parseStringBody.eq_def]
          simp [unescape, ih hcs rest]
        · by_cases h4 : c = '\t'
          · subst h4
            rw [escapeChar]
            rw [if_neg (by decide), if_neg (by decide), if_neg (by decide),
              if_pos rfl, List.cons_append, List.cons_append,
              parseStringBody.eq_def]
            simp [unescape, ih hcs rest]
          · by_cases h5 : c = '\r'
            · subst h5
              rw [escapeChar]
              rw [if_neg (by decide), if_neg (by decide), if_neg (by decide),
                if_neg (by decide), if_pos rfl, List.cons_append,
                List.cons_append, parseStringBody.eq_def]
              simp [unescape, ih hcs rest]
            · have hraw : okRaw c = true := by
                simp only [wfChar, Bool.or_eq_true, Bool.and_eq_true,
                  decide_eq_true_eq] at hc
                rcases hc with ((h | h) | h) | h
                · exact absurd h h3
                · exact absurd h h4
                · exact absurd h h5
                · simp [okRaw, h1, h2, h.1, h.2]
              rw [escapeChar]
              rw [if_neg h1, if_neg h2, if_neg h3, if_neg h4, if_neg h5,
                List.singleton_append, parseStringBody.eq_def]
              simp [h1, h2, hraw, ih hcs rest]

/-- Digit characters are digits. -/
theorem digitChar_isDigit (d : Nat) (hd : d < 10) :
    isDigit (digitChar d) = true := by
  interval_cases d <;> decide

/-- Digit characters decode to their digit. -/
theorem digitChar_val (d : Nat) (hd : d < 10) : digitVal (digitChar d) = d := by
  interval_cases d <;> decide

/-- Every character `natDigitsRev` emits is a digit. -/
theorem natDigitsRev_all (n : Nat) : ∀ c ∈ natDigitsRev n, isDigit c = true := by
  induction n using Nat.strong_induction_on with
  | _ n ih =>
    rw [natDigitsRev]
    split
    · simp
    · intro c hcmem
      rcases List.mem_cons.mp hcmem with rfl | hmem
      · exact digitChar_isDigit _ (Nat.mod_lt _ (by norm_num))
      · exact ih (n / 10)
          (Nat.div_lt_self (Nat.pos_of_ne_zero (by assumption)) (by norm_num))
          c hmem

/-- `natDigitsRev` is exact: its little-endian value is the number. -/
theorem lowVal_natDigitsRev (n : Nat) : lowVal (natDigitsRev n) = n := by
  induction n using Nat.strong_induction_on with
  | _ n ih =>
    rw [natDigitsRev]
    split
    · simp [lowVal]
      omega
    · rw [lowVal, digitChar_val _ (Nat.mod_lt _ (by norm_num)),
        ih (n / 10)
          (Nat.div_lt_self (Nat.pos_of_ne_zero (by assumption)) (by norm_num))]
      omega

/-- Reading a reversed digit list most-significant-first matches the
little-endian value. -/
theorem digitsToNat_reverse (ds : List Char) :
    digitsToNat ds.reverse = lowVal ds := by
  induction ds with
  | nil => rfl
  | cons c cs ih =>
    simp only [digitsToNat, List.reverse_cons, List.foldl_append,
      List.foldl_cons, List.foldl_nil] at ih ⊢
    rw [ih, lowVal]
    omega

/-- The digit run of `n` decodes back to `n`. -/
theorem digitsToNat_natDigits (n : Nat) : digitsToNat (natDigits n) = n := by
  rw [natDigits]
  split
  · subst n
    decide
  · rw [digitsToNat_reverse, lowVal_natDigitsRev]

/-- `natDigitsRev` of a positive number is non-empty. -/
theorem natDigitsRev_ne_nil (n : Nat) (h : n ≠ 0) : natDigitsRev n ≠ [] := by
  rw [natDigitsRev]
  split
  · exact absurd (by assumption) h
  · simp

/-- `natDigits` is never empty. -/
theorem natDigits_ne_nil (n : Nat) : natDigits n ≠ [] := by
  rw [natDigits]
  split
  · simp
  · simpa using natDigitsRev_ne_nil n (by assumption)

/-- Every character of `natDigits n` is a digit. -/
theorem natDigits_all (n : Nat) : ∀ c ∈ natDigits n, isDigit c = true := by
  rw [natDigits]
  split
  · intro c hc
    simp only [List.mem_singleton] at hc
    subst hc
    decide
  · intro c hc
    exact natDigitsRev_all n c (List.mem_reverse.mp hc)

/-- A digit character is not whitespace and differs from every JSON
structural character the parser dispatches on. -/
theorem isDigit_facts (c : Char) (h : isDigit c = true) :
    isWs c = false ∧ c ≠ 'n' ∧ c ≠ 't' ∧ c ≠ 'f' ∧ c ≠ '"' ∧ c ≠ '-' ∧
      c ≠ '[' ∧ c ≠ '{' ∧ c ≠ ']' ∧ c ≠ '}' ∧ c ≠ ',' ∧ c ≠ ':' := by
  simp only [isDigit, Bool.and_eq_true, decide_eq_true_eq] at h
  refine ⟨?_, ?_, ?_, ?_, ?_, ?_, ?_, ?_, ?_, ?_, ?_, ?_⟩
  · cases hw : isWs c
    · rfl
    · exfalso
      simp only [isWs, Bool.or_eq_true, decide_eq_true_eq] at hw
      rcases hw with ((hw | hw) | hw) | hw <;> subst hw <;>
        exact absurd h (by decide)
  all_goals (intro he; subst he; exact absurd h (by decide))

/-- Splitting a serialized digit run off the input. -/
theorem takeDigits_append (ds rest : List Char)
    (hds : ∀ c ∈ ds, isDigit c = true) (hrest : headNotDigit rest) :
    takeDigits (ds ++ rest) = (ds, rest) := by
  induction ds with
  | nil =>
    cases rest with
    | nil => rfl
    | cons c cs =>
      have hc := hrest c (by simp)
      simp [takeDigits, hc]
  | cons c cs ih =>
    have hc := hds c (by simp)
    simp only [List.cons_append, takeDigits, hc, if_true]
    rw [show cs.append rest = cs ++ rest from rfl,
      ih (fun x hx => hds x (by simp [hx]))]

/-- A serialized natural number parses back to its value. -/
theorem parseNat_ser (n : Nat) (rest : List Char) (hrest : headNotDigit rest) :
    parseNat (natDigits n ++ rest) = Option.some (n, rest) := by
  simp only [parseNat]
  rw [takeDigits_append _ _ (natDigits_all n) hrest]
  have hne : (natDigits n).isEmpty = false := by
    rcases hnd : natDigits n with _ | ⟨c, cs⟩
    · exact absurd hnd (natDigits_ne_nil n)
    · rfl
  simp [hne, digitsToNat_natDigits]

/-- Unfolding: serialization of `null`. -/
theorem serJson_null : serJson .null = ['n', 'u', 'l', 'l'] := by
  rw [serJson.eq_def]

/-- Unfolding: serialization of a number. -/
theorem serJson_num (i : Int) : serJson (.num i) = serInt i := by
  rw [serJson.eq_def]

/-- Unfolding: serialization of a string. -/
theorem serJson_str (s : String) : serJson (.str s) = serString s.data := by
  rw [serJson.eq_def]

/-- Unfolding: serialization of an array. -/
theorem serJson_arr (a : JsonArr) :
    serJson (.arr a) = '[' :: (serArr a ++ [']']) := by
  rw [serJson.eq_def]

/-- Unfolding: serialization of an object. -/
theorem serJson_obj (o : JsonObj) :
    serJson (.obj o) = '{' :: (serObj o ++ ['}']) := by
  rw [serJson.eq_def]

/-- Unfolding: a one-element array body. -/
theorem serArr_single (v : Json) : serArr (.cons v .nil) = serJson v := by
  rw [serArr.eq_def]

/-- Unfolding: a longer array body. -/
theorem serArr_cons2 (v v2 : Json) (r : JsonArr) :
    serArr (.cons v (.cons v2 r)) =
      serJson v ++ ',' :: ' ' :: serArr (.cons v2 r) := by
  rw [serArr.eq_def]

/-- Unfolding: a one-member object body. -/
theorem serObj_single (k : String) (v : Json) :
    serObj (.cons k v .nil) = serString k.data ++ ':' :: ' ' :: serJson v := by
  rw [serObj.eq_def]

/-- Unfolding: a longer object body. -/
theorem serObj_cons2 (k : String) (v : Json) (k2 : String) (v2 : Json)
    (r : JsonObj) :
    serObj (.cons k v (.cons k2 v2 r)) =
      serString k.data ++ ':' :: ' ' :: serJson v ++
        ',' :: ' ' :: serObj (.cons k2 v2 r) := by
  rw [serObj.eq_def]

/-- Every serialized value starts with a character that is neither
whitespace nor a closing bracket. -/
theorem serJson_head (v : Json) :
    ∃ c cs, serJson v = c :: cs ∧ isWs c = false ∧ c ≠ ']' ∧ c ≠ '}' := by
  cases v with
  | null => exact ⟨'n', _, serJson_null, by decide, by decide, by decide⟩
  | bool b =>
    cases b with
    | true =>
      exact ⟨'t', _, by rw [serJson.eq_def], by decide, by decide, by decide⟩
    | false =>
      exact ⟨'f', _, by rw [serJson.eq_def], by decide, by decide, by decide⟩
  | num i =>
    rw [serJson_num, serInt]
    by_cases hi : i < 0
    · rw [if_pos hi]
      exact ⟨'-', _, rfl, by decide, by decide, by decide⟩
    · rw [if_neg hi]
      rcases hnd : natDigits i.natAbs with _ | ⟨c, cs⟩
      · exact absurd hnd (natDigits_ne_nil _)
      · have hc : isDigit c = true := natDigits_all _ c (by rw [hnd]; simp)
        obtain ⟨hws, _, _, _, _, _, _, _, hrb, hrc, _, _⟩ := isDigit_facts c hc
        exact ⟨c, cs, rfl, hws, hrb, hrc⟩
  | str s =>
    exact ⟨'"', _, by rw [serJson_str, serString], by decide, by decide, by decide⟩
  | arr a => exact ⟨'[', _, serJson_arr a, by decide, by decide, by decide⟩
  | obj o => exact ⟨'{', _, serJson_obj o, by decide, by decide, by decide⟩

/-- Leading spaces are transparent to `skipWs`. -/
theorem skipWs_cons_space (cs : List Char) : skipWs (' ' :: cs) = skipWs cs := by
  simp [skipWs, isWs]

/-- Leading spaces are transparent to the value parser. -/
theorem parseVal_cons_space (fuel : Nat) (cs : List Char) :
    parseVal fuel (' ' :: cs) = parseVal fuel cs := by
  cases fuel with
  | zero =>
    rw [parseVal.eq_def]
    conv_rhs => rw [parseVal.eq_def]
  | succ f =>
    rw [parseVal.eq_def]
    conv_rhs => rw [parseVal.eq_def]
    dsimp only
    rw [skipWs_cons_space]

/-- Leading spaces are transparent to the element parser. -/
theorem parseElems_cons_space (fuel : Nat) (cs : List Char) :
    parseElems fuel (' ' :: cs) = parseElems fuel cs := by
  cases fuel with
  | zero =>
    rw [parseElems.eq_def]
    conv_rhs => rw [parseElems.eq_def]
  | succ f =>
    rw [parseElems.eq_def]
    conv_rhs => rw [parseElems.eq_def]
    dsimp only
    rw [parseVal_cons_space]

/-- Leading spaces are transparent to the member parser. -/
theorem parseMembers_cons_space (fuel : Nat) (cs : List Char) :
    parseMembers fuel (' ' :: cs) = parseMembers fuel cs := by
  cases fuel with
  | zero =>
    rw [parseMembers.eq_def]
    conv_rhs => rw [parseMembers.eq_def]
  | succ f =>
    rw [parseMembers.eq_def]
    conv_rhs => rw [parseMembers.eq_def]
    dsimp only
    rw [skipWs_cons_space]

/-- `headNotDigit` holds for input led by a non-digit. -/
theorem headNotDigit_cons (c : Char) (cs : List Char) (h : isDigit c = false) :
    headNotDigit (c :: cs) := by
  intro x hx
  simp only [List.head?_cons, Option.mem_def, Option.some.injEq] at hx
  subst hx
  exact h

/-- `headNotDigit` holds for empty input. -/
theorem headNotDigit_nil : headNotDigit [] := by
  intro x hx
  simp at hx

/-- Unfolding: well-formedness of a string value. -/
theorem wf_str (s : String) : Json.wf (.str s) = wfString s := by
  rw [Json.wf.eq_def]

/-- Unfolding: well-formedness of an array value. -/
theorem wf_arr (a : JsonArr) : Json.wf (.arr a) = JsonArr.wf a := by
  rw [Json.wf.eq_def]

/-- Unfolding: well-formedness of an object value. -/
theorem wf_obj (o : JsonObj) : Json.wf (.obj o) = JsonObj.wf o := by
  rw [Json.wf.eq_def]

/-- Unfolding: well-formedness of an array spine. -/
theorem wfArr_cons (v : Json) (r : JsonArr) :
    JsonArr.wf (.cons v r) = (Json.wf v && JsonArr.wf r) := by
  rw [JsonArr.wf.eq_def]

/-- Unfolding: well-formedness of an object spine. -/
theorem wfObj_cons (k : String) (v : Json) (r : JsonObj) :
    JsonObj.wf (.cons k v r) = (wfString k && Json.wf v && JsonObj.wf r) := by
  rw [JsonObj.wf.eq_def]

mutual

/-- A serialized well-formed value parses back to itself at sufficient
fuel, leaving any non-digit-led trailing input intact. -/
theorem parseVal_ser : ∀ (v : Json) (fuel : Nat) (rest : List Char),
    Json.wf v = true → jsize v ≤ fuel → headNotDigit rest →
    parseVal fuel (serJson v ++ rest) = Option.some (v, rest)
  | .null, fuel, rest => by
    intro hwf hfuel hrest
    obtain ⟨f, rfl⟩ : ∃ f, fuel = f + 1 := ⟨fuel - 1, by simp [jsize] at hfuel; omega⟩
    rw [serJson_null, parseVal.eq_def]
    simp [skipWs, isWs]
  | .bool true, fuel, rest => by
    intro hwf hfuel hrest
    obtain ⟨f, rfl⟩ : ∃ f, fuel = f + 1 := ⟨fuel - 1, by simp [jsize] at hfuel; omega⟩
    rw [serJson.eq_def, parseVal.eq_def]
    simp [skipWs, isWs]
  | .bool false, fuel, rest => by
    intro hwf hfuel hrest
    obtain ⟨f, rfl⟩ : ∃ f, fuel = f + 1 := ⟨fuel - 1, by simp [jsize] at hfuel; omega⟩
    rw [serJson.eq_def, parseVal.eq_def]
    simp [skipWs, isWs]
  | .num i, fuel, rest => by
    intro hwf hfuel hrest
    obtain ⟨f, rfl⟩ : ∃ f, fuel = f + 1 := ⟨fuel - 1, by simp [jsize] at hfuel; omega⟩
    by_cases hi : i < 0
    · rw [serJson_num, serInt, if_pos hi, parseVal.eq_def]
      simp [skipWs, isWs, parseNat_ser _ _ hrest]
      rw [abs_of_neg hi]
      ring
    · rw [serJson_num, serInt, if_neg hi]
      rcases hnd : natDigits i.natAbs with _ | ⟨c, cs⟩
      · exact absurd hnd (natDigits_ne_nil _)
      · have hc : isDigit c = true := natDigits_all _ c (by rw [hnd]; simp)
        obtain ⟨hws, hn, ht, hf2, hq, hm, _, _, _, _, _, _⟩ := isDigit_facts c hc
        rw [parseVal.eq_def]
        simp only [List.cons_append, skipWs_cons_not_ws _ _ hws]
        have hpn : parseNat (c :: (cs ++ rest)) = Option.some (i.natAbs, rest) := by
          rw [show c :: (cs ++ rest) = (c :: cs) ++ rest from rfl, ← hnd]
          exact parseNat_ser _ _ hrest
        simp [hn, ht, hf2, hq, hm, hc, hpn]
        omega
  | .str s, fuel, rest => by
    intro hwf hfuel hrest
    obtain ⟨f, rfl⟩ : ∃ f, fuel = f + 1 := ⟨fuel - 1, by simp [jsize] at hfuel; omega⟩
    rw [wf_str] at hwf
    rw [serJson_str, serString, parseVal.eq_def]
    simp only [List.cons_append, List.append_assoc]
    simp [skipWs, isWs, parseStringBody_ser s.data hwf rest]
  | .arr .nil, fuel, rest => by
    intro hwf hfuel hrest
    obtain ⟨f, rfl⟩ : ∃ f, fuel = f + 1 :=
      ⟨fuel - 1, by simp [jsize, asize] at hfuel; omega⟩
    rw [serJson_arr, serArr.eq_def, parseVal.eq_def]
    simp [skipWs, isWs, headIs, isDigit]
  | .arr (.cons v r), fuel, rest => by
    intro hwf hfuel hrest
    obtain ⟨f, rfl⟩ : ∃ f, fuel = f + 1 :=
      ⟨fuel - 1, by simp [jsize, asize] at hfuel; omega⟩
    rw [wf_arr] at hwf
    have helems := parseElems_ser v r f rest hwf
      (by simp [jsize, asize] at hfuel ⊢; omega) hrest
    obtain ⟨c, cs, hser, hws, hrb, hrc⟩ := serJson_head v
    have htail : ∃ tail, serArr (.cons v r) = c :: tail := by
      cases r with
      | nil => exact ⟨cs, by rw [serArr_single, hser]⟩
      | cons v2 r2 =>
          exact ⟨cs ++ ',' :: ' ' :: serArr (.cons v2 r2),
            by rw [serArr_cons2, hser]; simp⟩
    obtain ⟨tail, htail⟩ := htail
    rw [htail] at helems
    simp only [List.cons_append, List.append_assoc, List.singleton_append]
      at helems
    rw [serJson_arr, parseVal.eq_def, htail]
    simp only [List.cons_append, List.append_assoc, List.singleton_append]
    rw [skipWs_cons_not_ws _ _ (by decide)]
    simp [skipWs_cons_not_ws _ _ hws, headIs, hrb, helems, isDigit]
  | .obj .nil, fuel, rest => by
    intro hwf hfuel hrest
    obtain ⟨f, rfl⟩ : ∃ f, fuel = f + 1 :=
      ⟨fuel - 1, by simp [jsize, osize] at hfuel; omega⟩
    rw [serJson_obj, serObj.eq_def, parseVal.eq_def]
    simp [skipWs, isWs, headIs, isDigit]
  | .obj (.cons k v r), fuel, rest => by
    intro hwf hfuel hrest
    obtain ⟨f, rfl⟩ : ∃ f, fuel = f + 1 :=
      ⟨fuel - 1, by simp [jsize, osize] at hfuel; omega⟩
    rw [wf_obj] at hwf
    have hmem := parseMembers_ser k v r f rest hwf
      (by simp [jsize, osize] at hfuel ⊢; omega) hrest
    have hobjHead : ∃ tail, serObj (.cons k v r) = '"' :: tail := by
      cases r with
      | nil =>
        exact ⟨serStrAux k.data ++ ':' :: ' ' :: serJson v,
          by rw [serObj_single, serString]; simp⟩
      | cons k2 v2 r2 =>
        exact ⟨serStrAux k.data ++ ':' :: ' ' :: (serJson v ++
            ',' :: ' ' :: serObj (.cons k2 v2 r2)),
          by rw [serObj_cons2, serString]; simp⟩
    obtain ⟨tail, htail⟩ := hobjHead
    rw [htail] at hmem
    simp only [List.cons_append, List.append_assoc, List.singleton_append]
      at hmem
    rw [serJson_obj, parseVal.eq_def, htail]
    simp only [List.cons_append, List.append_assoc, List.singleton_append]
    rw [skipWs_cons_not_ws _ _ (by decide)]
    simp [skipWs, isWs, headIs, hmem, isDigit]
termination_by v _fuel _rest => sizeOf v
decreasing_by all_goals (simp_wf; try omega)

/-- A serialized non-empty array body followed by `]` parses back to the
spine, consuming the bracket. -/
theorem parseElems_ser : ∀ (v : Json) (r : JsonArr) (fuel : Nat)
    (rest : List Char), (Json.wf v && JsonArr.wf r) = true →
    1 + jsize v + asize r ≤ fuel → headNotDigit rest →
    parseElems fuel (serArr (.cons v r) ++ (']' :: rest)) =
      Option.some (JsonArr.cons v r, rest)
  | v, .nil, fuel, rest => by
    intro hwf hfuel hrest
    obtain ⟨f, rfl⟩ : ∃ f, fuel = f + 1 := ⟨fuel - 1, by omega⟩
    simp only [Bool.and_eq_true] at hwf
    rw [serArr_single, parseElems.eq_def]
    dsimp only
    rw [parseVal_ser v f (']' :: rest) hwf.1 (by simp [asize] at hfuel; omega)
      (headNotDigit_cons _ _ (by decide))]
    simp [skipWs, isWs, headIs]
  | v, .cons v2 r2, fuel, rest => by
    intro hwf hfuel hrest
    obtain ⟨f, rfl⟩ : ∃ f, fuel = f + 1 := ⟨fuel - 1, by omega⟩
    simp only [Bool.and_eq_true] at hwf
    obtain ⟨hwv, hwr⟩ := hwf
    rw [wfArr_cons, Bool.and_eq_true] at hwr
    have hrec := parseElems_ser v2 r2 f rest (by simp [hwr.1, hwr.2])
      (by simp [asize] at hfuel ⊢; omega) hrest
    rw [serArr_cons2, parseElems.eq_def]
    dsimp only
    simp only [List.cons_append, List.append_assoc]
    rw [parseVal_ser v f _ hwv (by simp [asize] at hfuel; omega)
      (headNotDigit_cons _ _ (by decide))]
    simp only [skipWs_cons_not_ws _ _ (by decide : isWs ',' = false)]
    rw [show headIs (',' :: (' ' :: (serArr (.cons v2 r2) ++ ']' :: rest))) ','
      = true from by simp [headIs]]
    simp only [if_true, List.tail_cons]
    rw [parseElems_cons_space, hrec]
    rfl
termination_by v r _fuel _rest => 1 + sizeOf v + sizeOf r
decreasing_by all_goals (simp_wf; try omega)

/-- A serialized non-empty object body followed by the closing brace
parses back to the spine, consuming the brace. -/
theorem parseMembers_ser : ∀ (k : String) (v : Json) (r : JsonObj)
    (fuel : Nat) (rest : List Char),
    (wfString k && Json.wf v && JsonObj.wf r) = true →
    1 + jsize v + osize r ≤ fuel → headNotDigit rest →
    parseMembers fuel (serObj (.cons k v r) ++ ('}' :: rest)) =
      Option.some (JsonObj.cons k v r, rest)
  | k, v, .nil, fuel, rest => by
    intro hwf hfuel hrest
    obtain ⟨f, rfl⟩ : ∃ f, fuel = f + 1 := ⟨fuel - 1, by omega⟩
    simp only [Bool.and_eq_true] at hwf
    rw [serObj_single, serString, parseMembers.eq_def]
    dsimp only
    simp only [List.cons_append, List.append_assoc]
    rw [skipWs_cons_not_ws _ _ (by decide)]
    rw [show headIs ('"' :: (serStrAux k.data ++ ':' :: ' ' ::
      (serJson v ++ '}' :: rest))) '"' = true from by simp [headIs]]
    simp only [if_true, List.tail_cons]
    rw [parseStringBody_ser k.data hwf.1.1 _]
    simp only [skipWs_cons_not_ws _ _ (by decide : isWs ':' = false)]
    rw [show headIs (':' :: (' ' :: (serJson v ++ '}' :: rest))) ':' = true
      from by simp [headIs]]
    simp only [if_true, List.tail_cons]
    rw [parseVal_cons_space,
      parseVal_ser v f _ hwf.1.2 (by simp [osize] at hfuel; omega)
        (headNotDigit_cons _ _ (by decide))]
    simp [skipWs, isWs, headIs]
  | k, v, .cons k2 v2 r2, fuel, rest => by
    intro hwf hfuel hrest
    obtain ⟨f, rfl⟩ : ∃ f, fuel = f + 1 := ⟨fuel - 1, by omega⟩
    simp only [Bool.and_eq_true] at hwf
    obtain ⟨⟨hwk, hwv⟩, hwr⟩ := hwf
    rw [wfObj_cons] at hwr
    simp only [Bool.and_eq_true] at hwr
    have hrec := parseMembers_ser k2 v2 r2 f rest
      (by simp [hwr.1.1, hwr.1.2, hwr.2]) (by simp [osize] at hfuel ⊢; omega)
      hrest
    rw [serObj_cons2, serString, parseMembers.eq_def]
    dsimp only
    simp only [List.cons_append, List.append_assoc]
    rw [skipWs_cons_not_ws _ _ (by decide)]
    rw [show headIs ('"' :: (serStrAux k.data ++ ':' :: ' ' ::
      (serJson v ++ ',' :: ' ' :: (serObj (.cons k2 v2 r2) ++ '}' :: rest))))
      '"' = true from by simp [headIs]]
    simp only [if_true, List.tail_cons]
    rw [parseStringBody_ser k.data hwk _]
    simp only [skipWs_cons_not_ws _ _ (by decide : isWs ':' = false)]
    rw [show headIs (':' :: (' ' :: (serJson v ++ ',' :: ' ' ::
      (serObj (.cons k2 v2 r2) ++ '}' :: rest)))) ':' = true
      from by simp [headIs]]
    simp only [if_true, List.tail_cons]
    rw [parseVal_cons_space,
      parseVal_ser v f _ hwv (by simp [osize] at hfuel; omega)
        (headNotDigit_cons _ _ (by decide))]
    simp only [skipWs_cons_not_ws _ _ (by decide : isWs ',' = false)]
    rw [show headIs (',' :: (' ' :: (serObj (.cons k2 v2 r2) ++ '}' :: rest)))
      ',' = true from by simp [headIs]]
    simp only [if_true, List.tail_cons]
    rw [parseMembers_cons_space, hrec]
    rfl
termination_by _k v r _fuel _rest => 1 + sizeOf v + sizeOf r
decreasing_by all_goals (simp_wf; try omega)

end

/-- Decoded escape characters are round-trippable. -/
theorem unescape_wf (e d : Char) (h : unescape e = Option.some d) : wfChar d = true := by
  unfold unescape at h
  split_ifs at h <;> (injection h with h; subst h; decide)

/-- Raw-accepted characters are round-trippable. -/
theorem okRaw_wf (c : Char) (h : okRaw c = true) : wfChar c = true := by
  simp only [okRaw, Bool.and_eq_true, decide_eq_true_eq] at h
  simp [wfChar, h.1.2, h.2]

/-- Every string the parser produces contains only round-trippable
characters. -/
theorem parseStringBody_wf : ∀ (n : Nat) (cs : List Char), cs.length ≤ n →
    ∀ s r, parseStringBody cs = Option.some (s, r) → s.all wfChar = true := by
  intro n
  induction n with
  | zero =>
    intro cs hlen s r h
    rcases cs with _ | ⟨c, cs2⟩
    · rw [parseStringBody.eq_def] at h
      exact Option.noConfusion h
    · simp at hlen
  | succ n ih =>
    intro cs hlen s r h
    rcases cs with _ | ⟨c, cs2⟩
    · rw [parseStringBody.eq_def] at h
      exact Option.noConfusion h
    · rw [parseStringBody.eq_def] at h
      dsimp only at h
      by_cases h1 : c = '"'
      · rw [if_pos h1] at h
        simp only [Option.some.injEq, Prod.mk.injEq] at h
        rw [← h.1]
        rfl
      · rw [if_neg h1] at h
        by_cases h2 : c = '\\'
        · rw [if_pos h2] at h
          rcases cs2 with _ | ⟨e, cs3⟩
          · exact Option.noConfusion h
          · dsimp only at h
            rcases hu : unescape e with _ | d <;> rw [hu] at h
            · exact Option.noConfusion h
            · rcases hp : parseStringBody cs3 with _ | p <;> rw [hp] at h
              · exact Option.noConfusion h
              · simp only [Option.map_some', Option.some.injEq, Prod.mk.injEq] at h
                rw [← h.1]
                have htail := ih cs3 (by simp at hlen; omega) p.1 p.2 hp
                simp [List.all_cons, unescape_wf e d hu, htail]
        · by_cases h3 : okRaw c
          · rw [if_neg h2, if_pos h3] at h
            rcases hp : parseStringBody cs2 with _ | p <;> rw [hp] at h
            · exact Option.noConfusion h
            · simp only [Option.map_some', Option.some.injEq, Prod.mk.injEq] at h
              rw [← h.1]
              have htail := ih cs2 (by simp at hlen; omega) p.1 p.2 hp
              simp [List.all_cons, okRaw_wf c h3, htail]
          · rw [if_neg h2, if_neg h3] at h
            exact Option.noConfusion h

/-- Unfolding: scalars are well-formed. -/
theorem wf_null : Json.wf .null = true := by rw [Json.wf.eq_def]
/-- Unfolding: booleans are well-formed. -/
theorem wf_bool (b : Bool) : Json.wf (.bool b) = true := by rw [Json.wf.eq_def]
/-- Unfolding: numbers are well-formed. -/
theorem wf_num (i : Int) : Json.wf (.num i) = true := by rw [Json.wf.eq_def]
/-- Unfolding: the empty array spine is well-formed. -/
theorem wfArr_nil : JsonArr.wf .nil = true := by rw [JsonArr.wf.eq_def]
/-- Unfolding: the empty object spine is well-formed. -/
theorem wfObj_nil : JsonObj.wf .nil = true := by rw [JsonObj.wf.eq_def]

/-- Everything the parser produces is within the serializer's range. -/
theorem parse_wf : ∀ fuel : Nat,
    (∀ cs v r, parseVal fuel cs = Option.some (v, r) → Json.wf v = true) ∧
    (∀ cs a r, parseElems fuel cs = Option.some (a, r) → JsonArr.wf a = true) ∧
    (∀ cs o r, parseMembers fuel cs = Option.some (o, r) → JsonObj.wf o = true) := by
  intro fuel
  induction fuel with
  | zero =>
    refine ⟨?_, ?_, ?_⟩ <;> intro cs x r h
    · rw [parseVal.eq_def] at h; exact Option.noConfusion h
    · rw [parseElems.eq_def] at h; exact Option.noConfusion h
    · rw [parseMembers.eq_def] at h; exact Option.noConfusion h
  | succ f ih =>
    obtain ⟨ihv, ihe, ihm⟩ := ih
    refine ⟨?_, ?_, ?_⟩
    · intro cs v r h
      rw [parseVal.eq_def] at h
      dsimp only at h
      repeat' split at h
      all_goals try exact Option.noConfusion h
      all_goals try (
        simp only [Option.some.injEq, Prod.mk.injEq] at h
        rw [← h.1]
        simp [wf_null, wf_bool, wf_num, wf_arr, wf_obj, wfArr_nil, wfObj_nil])
      all_goals (
        rw [Option.map_eq_some'] at h
        obtain ⟨p, hp, hpe⟩ := h
        cases hpe
        first
          | exact wf_num _
          | (rw [wf_str]; exact parseStringBody_wf _ _ le_rfl p.1 p.2 hp)
          | (rw [wf_arr]; exact ihe _ _ _ hp)
          | (rw [wf_obj]; exact ihm _ _ _ hp))
    · intro cs a r h
      rw [parseElems.eq_def] at h
      dsimp only at h
      rcases hpv : parseVal f cs with _ | ⟨p1⟩ <;> rw [hpv] at h
      · exact Option.noConfusion h
      · obtain ⟨v1, r1⟩ := p1
        dsimp only at h
        by_cases hc1 : headIs (skipWs r1) ',' = true
        · rw [if_pos hc1, Option.map_eq_some'] at h
          obtain ⟨p, hp, hpe⟩ := h
          cases hpe
          rw [wfArr_cons]
          simp [ihv _ _ _ hpv, ihe _ _ _ hp]
        · rw [if_neg hc1] at h
          by_cases hc2 : headIs (skipWs r1) ']' = true
          · rw [if_pos hc2] at h
            simp only [Option.some.injEq, Prod.mk.injEq] at h
            rw [← h.1, wfArr_cons]
            simp [ihv _ _ _ hpv, wfArr_nil]
          · rw [if_neg hc2] at h
            exact Option.noConfusion h
    · intro cs o r h
      rw [parseMembers.eq_def] at h
      dsimp only at h
      by_cases hq : headIs (skipWs cs) '"' = true
      · rw [if_pos hq] at h
        rcases hsb : parseStringBody (skipWs cs).tail with _ | ⟨pk⟩ <;> rw [hsb] at h
        · exact Option.noConfusion h
        · obtain ⟨k1, r2⟩ := pk
          dsimp only at h
          by_cases hcol : headIs (skipWs r2) ':' = true
          · rw [if_pos hcol] at h
            rcases hpv : parseVal f (skipWs r2).tail with _ | ⟨pv⟩ <;> rw [hpv] at h
            · exact Option.noConfusion h
            · obtain ⟨v1, r4⟩ := pv
              dsimp only at h
              by_cases hc1 : headIs (skipWs r4) ',' = true
              · rw [if_pos hc1, Option.map_eq_some'] at h
                obtain ⟨p, hp, hpe⟩ := h
                cases hpe
                rw [wfObj_cons]
                have hk : wfString (String.mk k1) = true :=
                  parseStringBody_wf _ _ le_rfl k1 r2 hsb
                simp [hk, ihv _ _ _ hpv, ihm _ _ _ hp]
              · rw [if_neg hc1] at h
                by_cases hc2 : headIs (skipWs r4) '}' = true
                · rw [if_pos hc2] at h
                  simp only [Option.some.injEq, Prod.mk.injEq] at h
                  rw [← h.1, wfObj_cons]
                  have hk : wfString (String.mk k1) = true :=
                    parseStringBody_wf _ _ le_rfl k1 r2 hsb
                  simp [hk, ihv _ _ _ hpv, wfObj_nil]
                · rw [if_neg hc2] at h
                  exact Option.noConfusion h
          · rw [if_neg hcol] at h
            exact Option.noConfusion h
      · rw [if_neg hq] at h
        exact Option.noConfusion h

mutual

/-- The fuel a value needs is at most its serialized length. -/
theorem jsize_le : ∀ v : Json, jsize v ≤ (serJson v).length
  | .null => by rw [serJson_null]; simp [jsize]
  | .bool true => by rw [serJson.eq_def]; simp [jsize]
  | .bool false => by rw [serJson.eq_def]; simp [jsize]
  | .num i => by
    rw [serJson_num, serInt]
    have h1 := natDigits_ne_nil i.natAbs
    have h2 : 1 ≤ (natDigits i.natAbs).length := by
      rcases hnd : natDigits i.natAbs with _ | ⟨c, cs⟩
      · exact absurd hnd h1
      · simp
    split <;> (simp [jsize]; try omega)
  | .str s => by rw [serJson_str, serString]; simp [jsize]
  | .arr a => by
    rw [serJson_arr]
    have := asize_le a
    simp [jsize]
    omega
  | .obj o => by
    rw [serJson_obj]
    have := osize_le o
    simp [jsize]
    omega

/-- Fuel bound for array spines. -/
theorem asize_le : ∀ a : JsonArr, asize a ≤ (serArr a).length + 1
  | .nil => by simp [asize]
  | .cons v .nil => by
    rw [serArr_single]
    have := jsize_le v
    simp [asize]
    omega
  | .cons v (.cons v2 r2) => by
    rw [serArr_cons2]
    have h1 := jsize_le v
    have h2 := asize_le (.cons v2 r2)
    simp [asize] at h2 ⊢
    omega

/-- Fuel bound for object spines. -/
theorem osize_le : ∀ o : JsonObj, osize o ≤ (serObj o).length + 1
  | .nil => by simp [osize]
  | .cons k v .nil => by
    rw [serObj_single]
    have := jsize_le v
    simp [osize]
    omega
  | .cons k v (.cons k2 v2 r2) => by
    rw [serObj_cons2]
    have h1 := jsize_le v
    have h2 := osize_le (.cons k2 v2 r2)
    simp [osize] at h2 ⊢
    omega

end

/-- Serializing any well-formed value and decoding it yields the value
back (`json.loads (json.dumps v) = v` over the modelled fragment). -/
theorem parseJson_serialize (v : Json) (hwf : Json.wf v = true) :
    parseJson (serialize v) = Option.some v := by
  simp only [parseJson, serialize]
  rw [show (String.mk (serJson v)).length = (serJson v).length from rfl]
  have hp := parseVal_ser v ((serJson v).length + 1) [] hwf
    (by have := jsize_le v; omega) headNotDigit_nil
  rw [List.append_nil] at hp
  rw [hp]
  rfl

/-- C9: a `ToolCall` constructed with an `args` payload that is a
well-formed JSON-object string has the payload decoded into the
key/value mapping (`parse_args` yields it), and re-serializing that
mapping with the (modelled) `json.dumps` decodes back to the same
mapping — the decode/serialize round-trip.  A payload string that is
not well-formed JSON is a hard validation error
(`ValueError("Invalid JSON string")`). -/
theorem C9_args_decode_roundtrip (s : String) (o : JsonObj) :
    (parseJson s = Option.some (Json.obj o) →
      parse_args (.inl s) = .ok o ∧
      parseJson (serialize (Json.obj o)) = Option.some (Json.obj o)) ∧
    (parseJson s = Option.none →
      parse_args (.inl s) = .error "Invalid JSON string") := by
  constructor
  · intro hp
    refine ⟨by simp [parse_args, hp], ?_⟩
    have hwf : Json.wf (Json.obj o) = true := by
      simp only [parseJson] at hp
      rcases hpv : parseVal (s.length + 1) s.data with _ | ⟨p⟩ <;> rw [hpv] at hp
      · exact absurd hp (by simp)
      · obtain ⟨v1, r1⟩ := p
        dsimp only at hp
        by_cases hsw : skipWs r1 = []
        · rw [if_pos hsw] at hp
          injection hp with hp
          rw [← hp]
          exact (parse_wf (s.length + 1)).1 s.data v1 r1 hpv
        · rw [if_neg hsw] at hp
          exact absurd hp (by simp)
    exact parseJson_serialize _ hwf
  · intro hp
    simp [parse_args, hp]

/-- Witness for C9: the payload `{"a": 2}` decodes to the mapping
`a ↦ 2` and round-trips; the malformed payload `{ nope` is the hard
decode error. -/
theorem C9_args_decode_roundtrip_witness :
    parse_args (.inl "\x7b\"a\": 2\x7d") =
      .ok (JsonObj.cons "a" (Json.num 2) .nil) ∧
    parseJson (serialize (Json.obj (JsonObj.cons "a" (Json.num 2) .nil))) =
      Option.some (Json.obj (JsonObj.cons "a" (Json.num 2) .nil)) ∧
    parse_args (.inl "\x7b nope") = .error "Invalid JSON string" := by
  obtain ⟨h1, h2⟩ := (C9_args_decode_roundtrip "\x7b\"a\": 2\x7d"
    (JsonObj.cons "a" (Json.num 2) .nil)).1 (by decide)
  have h3 := (C9_args_decode_roundtrip "\x7b nope" JsonObj.nil).2 (by decide)
  exact ⟨h1, h2, h3⟩

end AgentSpec
